import Mathlib

/-!
# Object-Detection-App: geometry and suppression engine

Shallow embedding of `src/js/detectionService.js` (`calculateIoU`,
`applyNonMaxSuppression`, `filterDetections`, `detectObjects`), of `drawDetections`
(`src/js/drawingUtils.js`), of the two detection cycles of
`src/js/components/DetectionView.js`, of the rows of `src/js/components/ResultsPanel.js`
and of the state handlers of `src/js/components/App.js`, with the properties of the
specification about them.

Modelling conventions.
* A JavaScript number is modelled as a rational number: arithmetic is exact, and the
  non-finite values (`NaN`, `Infinity`) are not part of the model. The double
  computation agrees with the model wherever every intermediate value is exactly
  representable; where a property depends on that, it is proved together with the
  exactness of the intermediate values (`exactInDouble`).
* A bounding box is the four-element array `[x, y, width, height]`; the fields of `Box`
  are the array positions `0, 1, 2, 3` in this order.
* A detection is the object `{ bbox, class, score }`.
* `null` / `undefined` arguments are modelled with `Option`.
* An asynchronous cycle is modelled by the list of its observable steps in program
  order; the value of the flag `isActive` at each point where the cycle reads it is an
  argument (the flag can only change while the cycle is suspended at an `await`).
* A React event handler is a closure of one render: the state values it reads are those
  of that render, given as an argument, and its `set...` calls update the current state.
-/

namespace DetectionService

/-- Bounding box `[x, y, width, height]` (array positions 0, 1, 2, 3). -/
structure Box where
  x : ℚ
  y : ℚ
  width : ℚ
  height : ℚ
  deriving DecidableEq, Repr

/-- Detection record `{ bbox, class, score }`; `class_` is the JavaScript field `class`. -/
structure Detection where
  bbox : Box
  class_ : String
  score : ℚ
  deriving DecidableEq, Repr

/-- The union area `box1Area + box2Area - intersectionArea` computed by `calculateIoU`
(detectionService.js, lines 112-131). -/
def unionArea (box1 box2 : Box) : ℚ :=
  let box1Area := box1.width * box1.height
  let box2Area := box2.width * box2.height
  let box1X2 := box1.x + box1.width
  let box1Y2 := box1.y + box1.height
  let box2X2 := box2.x + box2.width
  let box2Y2 := box2.y + box2.height
  let intersectionX1 := max box1.x box2.x
  let intersectionY1 := max box1.y box2.y
  let intersectionX2 := min box1X2 box2X2
  let intersectionY2 := min box1Y2 box2Y2
  let intersectionWidth := max 0 (intersectionX2 - intersectionX1)
  let intersectionHeight := max 0 (intersectionY2 - intersectionY1)
  let intersectionArea := intersectionWidth * intersectionHeight
  box1Area + box2Area - intersectionArea

/-- Function `calculateIoU(box1, box2)` (detectionService.js, lines 110-135). -/
def calculateIoU (box1 box2 : Box) : ℚ :=
  let box1Area := box1.width * box1.height
  let box2Area := box2.width * box2.height
  let box1X2 := box1.x + box1.width
  let box1Y2 := box1.y + box1.height
  let box2X2 := box2.x + box2.width
  let box2Y2 := box2.y + box2.height
  let intersectionX1 := max box1.x box2.x
  let intersectionY1 := max box1.y box2.y
  let intersectionX2 := min box1X2 box2X2
  let intersectionY2 := min box1Y2 box2Y2
  let intersectionWidth := max 0 (intersectionX2 - intersectionX1)
  let intersectionHeight := max 0 (intersectionY2 - intersectionY1)
  let intersectionArea := intersectionWidth * intersectionHeight
  let unionArea := box1Area + box2Area - intersectionArea
  if unionArea > 0 then intersectionArea / unionArea else 0

/-- Division that records a zero divisor: `none` stands for the non-finite result
(`NaN` or `Infinity`) JavaScript produces when the divisor is `0`. -/
def checkedDiv (a b : ℚ) : Option ℚ :=
  if b = 0 then none else some (a / b)

/-- Function `calculateIoU(box1, box2)` with its one division made explicit: the same body as
`calculateIoU`, the `/` of line 134 replaced by `checkedDiv`. -/
def calculateIoUChecked (box1 box2 : Box) : Option ℚ :=
  let box1Area := box1.width * box1.height
  let box2Area := box2.width * box2.height
  let box1X2 := box1.x + box1.width
  let box1Y2 := box1.y + box1.height
  let box2X2 := box2.x + box2.width
  let box2Y2 := box2.y + box2.height
  let intersectionX1 := max box1.x box2.x
  let intersectionY1 := max box1.y box2.y
  let intersectionX2 := min box1X2 box2X2
  let intersectionY2 := min box1Y2 box2Y2
  let intersectionWidth := max 0 (intersectionX2 - intersectionX1)
  let intersectionHeight := max 0 (intersectionY2 - intersectionY1)
  let intersectionArea := intersectionWidth * intersectionHeight
  let unionArea := box1Area + box2Area - intersectionArea
  if unionArea > 0 then checkedDiv intersectionArea unionArea else some 0

/-- The sort comparator `(a, b) => b.score - a.score` (line 151). -/
def compareScore (a b : Detection) : ℚ :=
  b.score - a.score

/-- Insertion step of the stable sort: `x`, which precedes every element of the list in
the original array, is placed before the first element it does not have to follow
(comparator result `≤ 0`), hence before the elements it ties with. -/
def insertByScore (x : Detection) : List Detection → List Detection
  | [] => [x]
  | y :: ys => if compareScore x y ≤ 0 then x :: y :: ys else y :: insertByScore x ys

/-- The sorted copy `[...detections].sort((a, b) => b.score - a.score)` (line 151).
`Array.prototype.sort` is a stable sort (ECMAScript 2019); with a consistent comparator
its result is the unique stable ordering, computed here by insertion. -/
def sortDetections : List Detection → List Detection
  | [] => []
  | x :: xs => insertByScore x (sortDetections xs)

/-- The test of lines 164-167: `detection` is a duplicate of `currentDetection`. -/
def isDuplicate (iouThreshold : ℚ) (currentDetection detection : Detection) : Bool :=
  detection.class_ == currentDetection.class_ &&
    decide (calculateIoU detection.bbox currentDetection.bbox > iouThreshold)

/-- The inner `for` loop of lines 160-171. The first argument is `i + 1` for the loop
index `i` (so `0` is the exit `i = -1`); the list is `sortedDetections`, from which
`splice(i, 1)` removes position `i`. The index is always in range, so the `none` branch
is never taken. -/
def removeDuplicates (iouThreshold : ℚ) (currentDetection : Detection) :
    Nat → List Detection → List Detection
  | 0, sortedDetections => sortedDetections
  | i + 1, sortedDetections =>
    match sortedDetections[i]? with
    | some detection =>
      if isDuplicate iouThreshold currentDetection detection then
        removeDuplicates iouThreshold currentDetection i (sortedDetections.eraseIdx i)
      else
        removeDuplicates iouThreshold currentDetection i sortedDetections
    | none => removeDuplicates iouThreshold currentDetection i sortedDetections

/-- The `while` loop of lines 154-172, on `sortedDetections` and `selectedDetections`:
`shift()` takes the head, `push` appends it to the selection, the inner loop filters the
rest. It terminates because every iteration shortens `sortedDetections`. -/
def nmsLoop (iouThreshold : ℚ) :
    List Detection → List Detection → List Detection
  | [], selectedDetections => selectedDetections
  | currentDetection :: rest, selectedDetections =>
    nmsLoop iouThreshold
      (removeDuplicates iouThreshold currentDetection rest.length rest)
      (selectedDetections ++ [currentDetection])
termination_by sortedDetections => sortedDetections.length
decreasing_by
  have hlen : ∀ (n : Nat) (l : List Detection),
      (removeDuplicates iouThreshold currentDetection n l).length ≤ l.length := by
    intro n
    induction n with
    | zero => intro l; simp [removeDuplicates]
    | succ n ih =>
      intro l
      unfold removeDuplicates
      split
      · split
        · exact le_trans (ih _) (List.length_eraseIdx_le _ _)
        · exact ih l
      · exact ih l
  have := hlen rest.length rest
  simp only [List.length_cons]
  omega

/-- Function `applyNonMaxSuppression(detections, iouThreshold)` (lines 145-175); a `null` or
`undefined` list is `none`. The default `iouThreshold = 0.5` applies when the caller
passes no threshold. -/
def applyNonMaxSuppression (detections : Option (List Detection)) (iouThreshold : ℚ) :
    List Detection :=
  match detections with
  | none => []
  | some [] => []
  | some (d :: ds) => nmsLoop iouThreshold (sortDetections (d :: ds)) []

/-- The box `[0, 0, 10, 10]` of the specification's scenarios. -/
def boxA : Box := ⟨0, 0, 10, 10⟩

/-- The box `[20, 20, 10, 10]` of the specification's scenarios. -/
def boxB : Box := ⟨20, 20, 10, 10⟩

/-- A box of zero width: `[0, 0, 0, 5]`. -/
def flatBox : Box := ⟨0, 0, 0, 5⟩

/-- A box of zero area: `[5, 5, 0, 0]`. -/
def pointBox : Box := ⟨5, 5, 0, 0⟩

/-- The box `[0, 0, 17, 10]`. -/
def boxC : Box := ⟨0, 0, 17, 10⟩

/-- The box `[3, 0, 17, 10]`; its IoU with `boxC` is `140 / 200 = 0.7`. -/
def boxD : Box := ⟨3, 0, 17, 10⟩

/-- A person detected with confidence `0.9`. -/
def personHigh : Detection := ⟨boxC, "person", 9 / 10⟩

/-- An overlapping duplicate of `personHigh` with confidence `0.6`. -/
def personLow : Detection := ⟨boxD, "person", 6 / 10⟩

/-- A dog detected in the box of `personLow` with confidence `0.6`. -/
def dogLow : Detection := ⟨boxD, "dog", 6 / 10⟩

/-! ## Filtering by confidence and class (`filterDetections`) -/

/-- Function `filterDetections(results, confidenceThreshold, classFilter)`
(detectionService.js, lines 82-100). A `results` argument that is `null`, `undefined` or
not an array is `none`; `classFilter` is the array of class names (default `[]`), and
`includes` on strings is equality. -/
def filterDetections (results : Option (List Detection)) (confidenceThreshold : ℚ)
    (classFilter : List String) : List Detection :=
  match results with
  | none => []
  | some results =>
    results.filter (fun detection =>
      if detection.score < confidenceThreshold then false
      else if classFilter.length > 0 then classFilter.contains detection.class_
      else true)

/-- The filter as the specification words it (`filterByConfidenceAndClass`): a detection is
kept iff `confidence >= minConfidence` and (`allowedClasses` is empty or
`classLabel ∈ allowedClasses`); order-preserving over the input. -/
def filterByConfidenceAndClass (detections : List Detection) (minConfidence : ℚ)
    (allowedClasses : List String) : List Detection :=
  detections.filter (fun d =>
    decide (d.score ≥ minConfidence ∧ (allowedClasses = [] ∨ d.class_ ∈ allowedClasses)))

/-- A cat detected with confidence `0.5`. -/
def catHalf : Detection := ⟨boxA, "cat", 1 / 2⟩

/-- A detection with confidence `0`. -/
def dogZero : Detection := ⟨boxB, "dog", 0⟩

/-! ## Running a model (`detectObjects`) -/

/-- Errors a JavaScript computation can raise in the modelled code. -/
inductive JsError where
  | typeError
  | backendError
  deriving DecidableEq, Repr

/-- Result of a call into the model backend (code outside the repository): the awaited
call returns a value, or it throws / its promise rejects. -/
inductive Outcome (α : Type) where
  | returns (value : α)
  | throws

/-- Record produced by `detectObjects`: `{ bbox, class, score }`, where a field is `none`
when its JavaScript value is `undefined`. -/
structure DetectionRecord where
  bbox : Option Box
  class_ : Option String
  score : Option ℚ
  deriving DecidableEq, Repr

/-- Raw COCO-SSD prediction; a field absent from the object is `none`. -/
structure CocoPrediction where
  bbox : Option Box
  class_ : Option String
  score : Option ℚ
  deriving DecidableEq, Repr

/-- A corner point of a face as the backend hands it over: a tensor, whose `arraySync()`
gives the point, or a plain array `[x, y]`, which has no method `arraySync`. BlazeFace
returns plain arrays when `estimateFaces` is called with `returnTensors = false`, as
line 41 calls it, and tensors when it is called with `true`. -/
inductive Corner where
  | tensor (x y : ℚ)
  | array (x y : ℚ)
  deriving DecidableEq, Repr

/-- The call `corner.arraySync()` of lines 46-47: on a plain array the method is
`undefined` and the call raises a `TypeError`. -/
def Corner.arraySync : Corner → Except JsError (ℚ × ℚ)
  | .tensor x y => .ok (x, y)
  | .array _ _ => .error .typeError

/-- Raw BlazeFace prediction: the corners `topLeft` and `bottomRight` and the vector
`probability`; a field absent from the object is `none`. -/
structure FacePrediction where
  topLeft : Option Corner
  bottomRight : Option Corner
  probability : Option (List ℚ)
  deriving DecidableEq, Repr

/-- The image or video element handed to the backend (its content is not inspected). -/
structure Frame where
  id : Nat
  deriving DecidableEq, Repr

/-- The loaded model: its two detection methods as the repository calls them. -/
structure Model where
  detect : Frame → ℚ → Nat → Outcome (List CocoPrediction)
  estimateFaces : Frame → Bool → Outcome (List FacePrediction)

/-- The model configuration (an entry of `MODELS`); `threshold` and `maxDetections` may be
absent. -/
structure ModelConfig where
  type : String
  threshold : Option ℚ
  maxDetections : Option Nat
  deriving DecidableEq, Repr

/-- A call issued to the model backend. -/
inductive BackendCall where
  | detect (frame : Frame) (scoreThreshold : ℚ) (maxDetections : Nat)
  | estimateFaces (frame : Frame) (returnTensors : Bool)
  deriving DecidableEq, Repr

/-- What one run of `detectObjects` does: how its promise settles (`ok`: resolved with
the list, `error`: rejected) and the backend calls it issued. -/
structure DetectRun where
  result : Except JsError (List DetectionRecord)
  calls : List BackendCall

/-- The expression `modelConfig.threshold || 0.5` (line 28): `undefined` and `0` are
falsy. -/
def scoreThresholdOf (modelConfig : ModelConfig) : ℚ :=
  match modelConfig.threshold with
  | some t => if t = 0 then 1 / 2 else t
  | none => 1 / 2

/-- The expression `modelConfig.maxDetections || 20` (line 29). -/
def maxDetectionsOf (modelConfig : ModelConfig) : Nat :=
  match modelConfig.maxDetections with
  | some n => if n = 0 then 20 else n
  | none => 20

/-- The COCO-SSD mapping of lines 32-36: the three fields are copied. -/
def cocoAdapter (prediction : CocoPrediction) : DetectionRecord :=
  { bbox := prediction.bbox, class_ := prediction.class_, score := prediction.score }

/-- The BlazeFace mapping of lines 44-56. Calling `arraySync` on a missing `topLeft` or
`bottomRight` or on a plain array, or indexing a missing `probability`, raises a
`TypeError`. -/
def faceAdapter (prediction : FacePrediction) : Except JsError DetectionRecord :=
  match prediction.topLeft with
  | none => .error .typeError
  | some topLeftCorner =>
    match topLeftCorner.arraySync with
    | .error e => .error e
    | .ok topLeft =>
      match prediction.bottomRight with
      | none => .error .typeError
      | some bottomRightCorner =>
        match bottomRightCorner.arraySync with
        | .error e => .error e
        | .ok bottomRight =>
          let width := bottomRight.1 - topLeft.1
          let height := bottomRight.2 - topLeft.2
          match prediction.probability with
          | none => .error .typeError
          | some probability =>
            .ok { bbox := some ⟨topLeft.1, topLeft.2, width, height⟩,
                  class_ := some "face",
                  score := probability.head? }

/-- The call `predictions.map(...)` of line 44 with a callback that may throw: the first
exception aborts the mapping. -/
def mapFaces : List FacePrediction → Except JsError (List DetectionRecord)
  | [] => .ok []
  | prediction :: rest =>
    match faceAdapter prediction with
    | .error e => .error e
    | .ok record =>
      match mapFaces rest with
      | .error e => .error e
      | .ok records => .ok (record :: records)

/-- The `try` block of `detectObjects` (lines 19-67), for a model and an element that are
present. A `null` configuration makes `modelConfig.type` raise a `TypeError`. -/
def detectObjectsTry (model : Model) (imageElement : Frame)
    (modelConfig : Option ModelConfig) : DetectRun :=
  match modelConfig with
  | none => ⟨.error .typeError, []⟩
  | some modelConfig =>
    if modelConfig.type = "cocossd" then
      let scoreThreshold := scoreThresholdOf modelConfig
      let maxDetections := maxDetectionsOf modelConfig
      match model.detect imageElement scoreThreshold maxDetections with
      | .throws =>
        ⟨.error .backendError, [.detect imageElement scoreThreshold maxDetections]⟩
      | .returns predictions =>
        ⟨.ok (predictions.map cocoAdapter),
          [.detect imageElement scoreThreshold maxDetections]⟩
    else if modelConfig.type = "blazeface" then
      match model.estimateFaces imageElement false with
      | .throws => ⟨.error .backendError, [.estimateFaces imageElement false]⟩
      | .returns predictions =>
        ⟨mapFaces predictions, [.estimateFaces imageElement false]⟩
    else if modelConfig.type = "custom" then
      ⟨.ok [], []⟩
    else
      ⟨.ok [], []⟩

/-- Function `detectObjects(model, imageElement, modelConfig)` (lines 13-72): the early
return for a missing model or element, then the `try` block, whose exceptions the
`catch` of lines 68-71 turns into the empty list. -/
def detectObjects (model : Option Model) (imageElement : Option Frame)
    (modelConfig : Option ModelConfig) : DetectRun :=
  match model, imageElement with
  | some model, some imageElement =>
    let run := detectObjectsTry model imageElement modelConfig
    match run.result with
    | .ok predictions => ⟨.ok predictions, run.calls⟩
    | .error _ => ⟨.ok [], run.calls⟩
  | _, _ => ⟨.ok [], []⟩

/-- A well-formed raw face: corner points `(x1, y1)`, `(x2, y2)` and a probability vector
with first element `p`. -/
structure Face where
  x1 : ℚ
  y1 : ℚ
  x2 : ℚ
  y2 : ℚ
  p : ℚ
  rest : List ℚ

/-- The raw BlazeFace prediction of a well-formed face with tensor corners (what
`estimateFaces(element, true)` returns). -/
def Face.raw (f : Face) : FacePrediction :=
  { topLeft := some (.tensor f.x1 f.y1), bottomRight := some (.tensor f.x2 f.y2),
    probability := some (f.p :: f.rest) }

/-- The raw BlazeFace prediction of a well-formed face with plain-array corners
`topLeft: [x1, y1]`, `bottomRight: [x2, y2]` (what `estimateFaces(element, false)`, the
call of line 41, returns). -/
def Face.plain (f : Face) : FacePrediction :=
  { topLeft := some (.array f.x1 f.y1), bottomRight := some (.array f.x2 f.y2),
    probability := some (f.p :: f.rest) }

/-- The record the specification expects for a face: `bbox = [x1, y1, x2 - x1, y2 - y1]`,
`class = 'face'`, `score = p`. -/
def Face.record (f : Face) : DetectionRecord :=
  { bbox := some ⟨f.x1, f.y1, f.x2 - f.x1, f.y2 - f.y1⟩, class_ := some "face",
    score := some f.p }

/-- A frame. -/
def frame0 : Frame := ⟨0⟩

/-- The BlazeFace entry of `MODELS` (constants.js, lines 31-38). -/
def blazefaceConfig : ModelConfig := ⟨"blazeface", some (3 / 4), none⟩

/-- The COCO-SSD entry of `MODELS` (constants.js, lines 7-30). -/
def cocoConfig : ModelConfig := ⟨"cocossd", some (1 / 2), some 20⟩

/-- A configuration of type `'custom'`. -/
def customConfig : ModelConfig := ⟨"custom", none, none⟩

/-- A face with corners `(10, 20)` and `(50, 80)` and probability `0.95`. -/
def face0 : Face := ⟨10, 20, 50, 80, 19 / 20, []⟩

/-- A backend that answers every call with the given predictions. -/
def constModel (coco : List CocoPrediction) (faces : List FacePrediction) : Model :=
  { detect := fun _ _ _ => .returns coco, estimateFaces := fun _ _ => .returns faces }

/-- A backend whose every call throws. -/
def failingModel : Model :=
  { detect := fun _ _ _ => .throws, estimateFaces := fun _ _ => .throws }

/-- A COCO-SSD prediction without `bbox`. -/
def cocoNoBox : CocoPrediction := ⟨none, some "person", some (9 / 10)⟩

/-- A BlazeFace prediction without `probability`. -/
def faceNoProbability : FacePrediction :=
  ⟨some (.tensor 10 20), some (.tensor 50 80), none⟩

/-! ## The detection cycles of `DetectionView` -/

/-- Observable steps of a detection cycle, in program order. -/
inductive Effect where
  | onDetectionStart
  | setCanvasSize (width height : Nat)
  | clearRect
  | drawImage
  | setTimeout (ms : Nat)
  | detectObjects (calls : List BackendCall)
  | drawDetections (results : List DetectionRecord)
  | onDetectionResults (results : List DetectionRecord)
  | consoleError
  | consoleLog
  | requestAnimationFrame
  deriving DecidableEq, Repr

/-- The video element `videoRef.current`, with the attributes `detectFrame` reads.
`videoWidth` and `videoHeight` are the natural dimensions of the video; the HTML
standard makes both `0` as long as no video data is available. -/
structure VideoElement where
  frame : Frame
  readyState : Nat
  videoWidth : Nat
  videoHeight : Nat
  dims : videoWidth = 0 ↔ videoHeight = 0

/-- What `detectFrame` finds in the component when a cycle starts: `videoRef.current`,
and whether `canvasRef.current` and `canvasContext` are set. -/
structure FrameEnv where
  video : Option VideoElement
  canvasPresent : Bool
  contextPresent : Bool

/-- Whether `drawDetections(canvasContext, results, modelConfig)` raises, for a context
that is present: destructuring the `bbox` of a record (drawingUtils.js, line 41) raises
a `TypeError` when it is `undefined`. -/
def drawDetectionsThrows (results : List DetectionRecord) : Bool :=
  results.any (fun r => r.bbox.isNone)

/-- The part of a cycle after `await detectObjects(...)`, shared by the `try` blocks of
`detectFrame` (lines 230-241) and of the still-image callback (lines 69-84).
`isActive` is the flag as read after the `await`; `inCatch` are the steps of the `catch`
block after its `console.error`, and `after` the steps that follow the `try` statement.
The result is the list of steps; the `return` of the `!isActive` test leaves the
function, so nothing follows it. -/
def afterInference (run : DetectRun) (isActive : Bool) (inCatch after : List Effect) :
    List Effect :=
  match run.result with
  | .error _ => [Effect.consoleError] ++ inCatch ++ after
  | .ok results =>
    if !isActive then []
    else if drawDetectionsThrows results then
      [Effect.drawDetections results, Effect.consoleError] ++ inCatch ++ after
    else
      [Effect.drawDetections results, Effect.onDetectionResults results] ++ after

/-- One cycle of the webcam loop, `detectFrame` (DetectionView.js, lines 210-255).
`isActiveAtStart` is the flag `isActive` when the cycle starts and `isActiveAfterAwait`
the flag when the awaited inference result arrives (the only suspension point). -/
def detectFrame (env : FrameEnv) (model : Option Model) (modelConfig : Option ModelConfig)
    (isActiveAtStart isActiveAfterAwait : Bool) : List Effect :=
  if !isActiveAtStart then []
  else
    match env.video with
    | none => [Effect.consoleLog, Effect.requestAnimationFrame]
    | some video =>
      if model.isSome && env.contextPresent && video.readyState == 4 &&
          decide (video.videoWidth > 0) then
        if !env.canvasPresent then
          [Effect.consoleError, Effect.requestAnimationFrame]
        else
          let run := detectObjects model (some video.frame) modelConfig
          [Effect.drawImage, Effect.detectObjects run.calls] ++
            afterInference run isActiveAfterAwait []
              (if isActiveAfterAwait then [Effect.requestAnimationFrame] else [])
      else
        [Effect.consoleLog, Effect.requestAnimationFrame]

/-- What the still-image cycle finds in the component: the image size, whether
`canvasRef.current` and `canvasContext` are set, and `imageRef.current`. -/
structure ImageEnv where
  imageWidth : Nat
  imageHeight : Nat
  canvasPresent : Bool
  contextPresent : Bool
  imageElement : Option Frame

/-- The callback of `setTimeout` in the still-image cycle (lines 64-85).
`isActiveAtTimeout` is the flag when the callback runs, `isActiveAfterAwait` the flag
when the inference result arrives. -/
def detectImageCallback (env : ImageEnv) (model : Option Model)
    (modelConfig : Option ModelConfig) (isActiveAtTimeout isActiveAfterAwait : Bool) :
    List Effect :=
  if !isActiveAtTimeout then []
  else
    let run := detectObjects model env.imageElement modelConfig
    [Effect.detectObjects run.calls] ++
      afterInference run isActiveAfterAwait
        (if isActiveAfterAwait then [Effect.onDetectionResults []] else []) []

/-- The still-image cycle `detectImage` (lines 47-93) followed by its timeout callback.
A missing canvas or context raises a `TypeError` in the synchronous part, handled by the
outer `catch` (lines 87-92). -/
def detectImage (env : ImageEnv) (model : Option Model) (modelConfig : Option ModelConfig)
    (isActiveAtStart isActiveAtTimeout isActiveAfterAwait : Bool) : List Effect :=
  if !isActiveAtStart then []
  else if !env.canvasPresent then
    [Effect.onDetectionStart, Effect.consoleError, Effect.onDetectionResults []]
  else if !env.contextPresent then
    [Effect.onDetectionStart, Effect.setCanvasSize env.imageWidth env.imageHeight,
      Effect.consoleError, Effect.onDetectionResults []]
  else
    [Effect.onDetectionStart, Effect.setCanvasSize env.imageWidth env.imageHeight,
      Effect.clearRect, Effect.drawImage, Effect.setTimeout 100] ++
      detectImageCallback env model modelConfig isActiveAtTimeout isActiveAfterAwait

/-- The readiness the specification asks of an active cycle before an inference call:
video element, model and canvas context present, a ready frame (`readyState = 4`) and
non-zero dimensions. -/
def readyForInference (env : FrameEnv) (model : Option Model) : Prop :=
  ∃ video, env.video = some video ∧ model.isSome = true ∧ env.contextPresent = true ∧
    video.readyState = 4 ∧ 0 < video.videoWidth ∧ 0 < video.videoHeight

/-- A playing 640 x 480 webcam video. -/
def readyVideo : VideoElement := ⟨frame0, 4, 640, 480, by decide⟩

/-- A video element without data yet. -/
def emptyVideo : VideoElement := ⟨frame0, 0, 0, 0, by decide⟩

/-- A component with a playing video, canvas and context. -/
def readyEnv : FrameEnv := ⟨some readyVideo, true, true⟩

/-- A component whose video has no data yet. -/
def waitingEnv : FrameEnv := ⟨some emptyVideo, true, true⟩

/-- A component showing a 640 x 480 still image. -/
def imageEnv : ImageEnv := ⟨640, 480, true, true, some frame0⟩

/-- The backend call `detectObjects` issues for this configuration throws or rejects. -/
def backendThrows (m : Model) (f : Frame) (c : ModelConfig) : Prop :=
  (c.type = "cocossd" ∧ m.detect f (scoreThresholdOf c) (maxDetectionsOf c) = .throws) ∨
    (c.type = "blazeface" ∧ m.estimateFaces f false = .throws)

/-- A complete COCO-SSD prediction: a person in `boxC` with confidence `0.9`. -/
def cocoAdapterInput : CocoPrediction := ⟨some boxC, some "person", some (9 / 10)⟩

/-! ## Drawing (`drawDetections`, drawingUtils.js) -/

/-- The canvas context `ctx`: the size of `ctx.canvas` and the text measurement
`ctx.measureText(label).width` of the browser. -/
structure Canvas where
  width : Nat
  height : Nat
  measureText : String → ℚ

/-- Operations on the canvas context, in the order issued. -/
inductive CanvasOp where
  | setFont (font : String)
  | setLineWidth (lineWidth : ℚ)
  | setStrokeStyle (color : Option String)
  | beginPath
  | rect (x y width height : ℚ)
  | stroke
  | setFillStyle (color : Option String)
  | fillRect (x y width height : ℚ)
  | fillText (text : String) (x y : ℚ)
  deriving DecidableEq, Repr

/-- The ten-colour palette of lines 18-29. -/
def colorPalette : List String :=
  ["#FF3B30", "#4CD964", "#007AFF", "#FF9500", "#5856D6",
   "#FF2D55", "#FFCC00", "#34C759", "#5AC8FA", "#AF52DE"]

/-- The constant `labelFontSize` of line 31. -/
def labelFontSize : ℚ := 16

/-- The constant `padding` of line 66. -/
def padding : ℚ := 4

/-- The variables `classColorMap` (entries in insertion order) and `colorIndex` of
lines 36-37. -/
structure ColorState where
  classColorMap : List (String × Option String)
  colorIndex : Nat

/-- The lookup `classColorMap.get(className)`; `none` is `undefined`. -/
def ColorState.get (state : ColorState) (className : String) : Option String :=
  match state.classColorMap.lookup className with
  | some color => color
  | none => none

/-- The test `classColorMap.has(className)`. -/
def ColorState.has (state : ColorState) (className : String) : Bool :=
  (state.classColorMap.lookup className).isSome

/-- The test of line 44: the detection is skipped. -/
def outsideCanvas (ctx : Canvas) (detection : Detection) : Bool :=
  decide (detection.bbox.x < 0) || decide (detection.bbox.y < 0) ||
    decide (detection.bbox.x + detection.bbox.width > ctx.width) ||
    decide (detection.bbox.y + detection.bbox.height > ctx.height)

/-- The text of line 62-63: `Math.round(score * 100)` rounds half up. -/
def labelOf (detection : Detection) : String :=
  let confidence : ℤ := Rat.floor (detection.score * 100 + 1 / 2)
  detection.class_ ++ ": " ++ toString confidence ++ "%"

/-- The rectangle passed to `fillRect` in line 70, the label background. -/
def labelTag (ctx : Canvas) (detection : Detection) : Box :=
  let textWidth := ctx.measureText (labelOf detection)
  { x := detection.bbox.x,
    y := detection.bbox.y - labelFontSize - padding * 2,
    width := textWidth + padding * 2,
    height := labelFontSize + padding * 2 }

/-- The colour assignment of lines 49-52. -/
def assignColor (state : ColorState) (className : String) : ColorState :=
  if !state.has className then
    { classColorMap := state.classColorMap ++
        [(className, colorPalette[state.colorIndex % colorPalette.length]?)],
      colorIndex := state.colorIndex + 1 }
  else state

/-- The body of the `forEach` callback (lines 40-75) for one detection: the new colour
state and the canvas operations issued. -/
def drawDetection (ctx : Canvas) (state : ColorState) (detection : Detection) :
    ColorState × List CanvasOp :=
  if outsideCanvas ctx detection then (state, [])
  else
    let state := assignColor state detection.class_
    let color := state.get detection.class_
    let label := labelOf detection
    let tag := labelTag ctx detection
    (state,
      [CanvasOp.setStrokeStyle color, CanvasOp.beginPath,
        CanvasOp.rect detection.bbox.x detection.bbox.y detection.bbox.width
          detection.bbox.height,
        CanvasOp.stroke,
        CanvasOp.setFillStyle color,
        CanvasOp.fillRect tag.x tag.y tag.width tag.height,
        CanvasOp.setFillStyle (some "#FFFFFF"),
        CanvasOp.fillText label (detection.bbox.x + padding) (detection.bbox.y - padding)])

/-- The loop `detections.forEach(...)` of line 39. -/
def drawLoop (ctx : Canvas) : ColorState → List Detection → List CanvasOp
  | _, [] => []
  | state, detection :: rest =>
    (drawDetection ctx state detection).2 ++
      drawLoop ctx (drawDetection ctx state detection).1 rest

/-- Function `drawDetections(ctx, detections, modelConfig)` (lines 12-76); a missing
context, or a `detections` argument that is missing or not an array, is `none`. The
function does not read `modelConfig`. -/
def drawDetections (ctx : Option Canvas) (detections : Option (List Detection)) :
    List CanvasOp :=
  match ctx, detections with
  | some ctx, some detections =>
    [CanvasOp.setFont "16px Arial", CanvasOp.setLineWidth 3] ++
      drawLoop ctx ⟨[], 0⟩ detections
  | _, _ => []

/-- The condition of the specification for a box inside a `W x H` surface: `x >= 0`,
`y >= 0`, `x + width <= W` and `y + height <= H`. -/
def insideSurface (ctx : Canvas) (d : Detection) : Prop :=
  0 ≤ d.bbox.x ∧ 0 ≤ d.bbox.y ∧ d.bbox.x + d.bbox.width ≤ ctx.width ∧
    d.bbox.y + d.bbox.height ≤ ctx.height

/-- The box of a `rect` operation. -/
def rectOf : CanvasOp → Option Box
  | .rect x y width height => some ⟨x, y, width, height⟩
  | _ => none

/-- A `100 x 100` canvas on which every character is 8 pixels wide. -/
def canvas100 : Canvas := ⟨100, 100, fun label => 8 * label.length⟩

/-- A detection reaching past the right edge of `canvas100`. -/
def catWide : Detection := ⟨⟨95, 50, 10, 10⟩, "cat", 1 / 2⟩

/-- A detection inside `canvas100`, close to its right edge. -/
def catRight : Detection := ⟨⟨90, 50, 10, 10⟩, "cat", 1 / 2⟩

instance insideSurfaceDecidable (ctx : Canvas) (d : Detection) :
    Decidable (insideSurface ctx d) := by
  unfold insideSurface
  infer_instance

/-! ## The results table (`ResultsPanel`) -/

/-- The method `toLowerCase()` on the letters `A`-`Z` (class names and filter texts in
ASCII); other characters are left unchanged. -/
def toLowerCase (s : String) : String :=
  ⟨s.data.map Char.toLower⟩

/-- The method `s.includes(searchString)`: `searchString` occurs in `s` as a contiguous
run of characters. -/
def includes (s searchString : String) : Bool :=
  decide (searchString.data <:+: s.data)

/-- Insertion step of a stable sort with comparator `compareFn`, as `insertByScore`. -/
def insertBy (compareFn : Detection → Detection → ℚ) (x : Detection) :
    List Detection → List Detection
  | [] => [x]
  | y :: ys =>
    if compareFn x y ≤ 0 then x :: y :: ys else y :: insertBy compareFn x ys

/-- The call `[...list].sort(compareFn)`: stable sort (ECMAScript 2019) by insertion. -/
def stableSort (compareFn : Detection → Detection → ℚ) : List Detection → List Detection
  | [] => []
  | x :: xs => insertBy compareFn x (stableSort compareFn xs)

/-- The rows `sortedPredictions` that `ResultsPanel` displays (ResultsPanel.js,
lines 8-24) for the state `sortBy`, `filterText`; `none` is the `null` rendered for a
missing or empty `predictions`. `localeCompare` is the string comparison of the
browser, used in the `'name'` mode. -/
def resultsPanelRows (localeCompare : String → String → ℤ)
    (predictions : Option (List Detection)) (sortBy filterText : String) :
    Option (List Detection) :=
  match predictions with
  | none => none
  | some [] => none
  | some predictions =>
    let filteredPredictions := predictions.filter (fun pred =>
      includes (toLowerCase pred.class_) (toLowerCase filterText))
    let sortedPredictions := stableSort (fun a b =>
      if sortBy = "confidence" then b.score - a.score
      else ((localeCompare a.class_ b.class_ : ℤ) : ℚ)) filteredPredictions
    some sortedPredictions

/-- The condition of the specification: the class name contains the filter text, ignoring
case. -/
def containsIgnoringCase (className filterText : String) : Prop :=
  (filterText.data.map Char.toLower) <:+: (className.data.map Char.toLower)

instance containsIgnoringCaseDecidable (className filterText : String) :
    Decidable (containsIgnoringCase className filterText) := by
  unfold containsIgnoringCase
  infer_instance

/-- The batch of the specification's scenario: cat `0.9`, cat `0.4`, dog `0.7`. -/
def catNine : Detection := ⟨boxA, "cat", 9 / 10⟩

/-- The second cat of the scenario. -/
def catFour : Detection := ⟨boxC, "cat", 4 / 10⟩

/-- The dog of the scenario. -/
def dogSeven : Detection := ⟨boxB, "dog", 7 / 10⟩

/-! ## The session state (`App`) -/

/-- The image object an upload hands to `handleImageUpload`. -/
structure UploadedImage where
  width : Nat
  height : Nat
  deriving DecidableEq, Repr

/-- The React state of `App` that the three handlers write (App.js, lines 5-11). -/
structure AppState where
  selectedModel : ModelConfig
  image : Option UploadedImage
  predictions : List DetectionRecord
  useWebcam : Bool
  deriving DecidableEq, Repr

/-- The constant `MODELS` (constants.js, lines 6-39), with the fields the model uses. -/
def MODELS : List ModelConfig := [cocoConfig, blazefaceConfig]

/-- The initial state: `useState(MODELS[0])`, `useState(null)`, `useState([])`,
`useState(false)`. -/
def initialState : AppState :=
  { selectedModel := cocoConfig, image := none, predictions := [], useWebcam := false }

/-- Handler `handleModelChange(modelType)` (App.js, lines 55-63), applied to the state
`current`. It reads only `MODELS`. -/
def handleModelChange (modelType : String) (current : AppState) : AppState :=
  match MODELS.find? (fun m => m.type == modelType) with
  | some newModel =>
    { current with selectedModel := newModel, predictions := [], image := none }
  | none => current

/-- Handler `handleImageUpload(imageData)` (lines 65-71). The handler is a closure of one
render of `App`: `render` is the state of that render, whose `useWebcam` the handler
reads; its `set...` calls update the state `current`. -/
def handleImageUpload (render : AppState) (imageData : UploadedImage)
    (current : AppState) : AppState :=
  let afterWebcam :=
    if render.useWebcam then { current with useWebcam := false } else current
  { afterWebcam with image := some imageData, predictions := [] }

/-- Handler `toggleWebcam()` (lines 73-79), a closure of the render with state `render`,
whose `useWebcam` and `image` it reads. -/
def toggleWebcam (render : AppState) (current : AppState) : AppState :=
  let afterToggle := { current with useWebcam := !render.useWebcam }
  let afterImage :=
    if render.image.isSome then { afterToggle with image := none } else afterToggle
  { afterImage with predictions := [] }

/-- A call of one of the three handlers. -/
inductive AppAction where
  | modelChange (modelType : String)
  | imageUpload (imageData : UploadedImage)
  | toggleWebcam
  deriving DecidableEq, Repr

/-- One handler call made through the latest render: the closure reads the state it
updates. -/
def appStep (s : AppState) : AppAction → AppState
  | .modelChange modelType => handleModelChange modelType s
  | .imageUpload imageData => handleImageUpload s imageData s
  | .toggleWebcam => toggleWebcam s s

/-- A sequence of handler calls, each made through the latest render. -/
def appRun (s : AppState) (actions : List AppAction) : AppState :=
  actions.foldl appStep s

/-- The two sources are not held at once. -/
def singleSource (s : AppState) : Prop :=
  ¬ (s.image.isSome = true ∧ s.useWebcam = true)

/-- An uploaded `640 x 480` image. -/
def image0 : UploadedImage := ⟨640, 480⟩

/-! ## Colours of the classes in `drawDetections` -/

/-- The canvas operations of lines 56-74 for one drawn detection and its colour. -/
def detectionOps (ctx : Canvas) (detection : Detection) (color : Option String) :
    List CanvasOp :=
  [CanvasOp.setStrokeStyle color, CanvasOp.beginPath,
    CanvasOp.rect detection.bbox.x detection.bbox.y detection.bbox.width
      detection.bbox.height,
    CanvasOp.stroke,
    CanvasOp.setFillStyle color,
    CanvasOp.fillRect (labelTag ctx detection).x (labelTag ctx detection).y
      (labelTag ctx detection).width (labelTag ctx detection).height,
    CanvasOp.setFillStyle (some "#FFFFFF"),
    CanvasOp.fillText (labelOf detection) (detection.bbox.x + padding)
      (detection.bbox.y - padding)]

/-- The variables `classColorMap` and `colorIndex` after the `forEach` loop has run over
the detections. -/
def colorLoop (ctx : Canvas) : ColorState → List Detection → ColorState
  | state, [] => state
  | state, detection :: rest => colorLoop ctx (drawDetection ctx state detection).1 rest

/-- The colour one call of `drawDetections` assigns to a class: the entry of
`classColorMap` when the call ends (`none` when the class has no entry). -/
def classColor (ctx : Canvas) (detections : List Detection) (className : String) :
    Option String :=
  (colorLoop ctx ⟨[], 0⟩ detections).get className

/-- The distinct classes in the order first encountered, continuing from the classes
`seen` so far. -/
def distinctClasses (seen : List String) : List String → List String
  | [] => seen
  | c :: cs => distinctClasses (if c ∈ seen then seen else seen ++ [c]) cs

/-- The distinct classes of the drawn detections of a batch (those inside the surface),
in the order first encountered; the position of a class in this list is its rank `k`. -/
def drawnClasses (ctx : Canvas) (detections : List Detection) : List String :=
  distinctClasses []
    ((detections.filter (fun d => decide (insideSurface ctx d))).map (fun d => d.class_))

/-- The colour state agrees with the classes seen so far: one entry per class, the
`k`-th class seen holding palette entry `k mod 10`. -/
def ColorInv (state : ColorState) (seen : List String) : Prop :=
  state.colorIndex = seen.length ∧
    (∀ c, state.has c = true ↔ c ∈ seen) ∧
    ∀ c ∈ seen, state.get c = colorPalette[seen.indexOf c % 10]?

/-! ## Exactness of the double computation of `calculateIoU` -/

/-- A sufficient condition for a number to be an IEEE double and for a double operation
whose mathematical result it is to be exact (no rounding, no overflow): it is an
integer of absolute value at most `2^53`. -/
def exactInDouble (q : ℚ) : Prop :=
  ∃ n : ℤ, q = n ∧ -(2 : ℤ) ^ 53 ≤ n ∧ n ≤ (2 : ℤ) ^ 53

/-- Every value `calculateIoU(box1, box2)` computes, in the order of lines 112-134: the
results of all additions, subtractions, multiplications, `Math.max` and `Math.min`
calls, and the returned value. -/
def calculateIoUSteps (box1 box2 : Box) : List ℚ :=
  let box1Area := box1.width * box1.height
  let box2Area := box2.width * box2.height
  let box1X2 := box1.x + box1.width
  let box1Y2 := box1.y + box1.height
  let box2X2 := box2.x + box2.width
  let box2Y2 := box2.y + box2.height
  let intersectionX1 := max box1.x box2.x
  let intersectionY1 := max box1.y box2.y
  let intersectionX2 := min box1X2 box2X2
  let intersectionY2 := min box1Y2 box2Y2
  let intersectionWidth := max 0 (intersectionX2 - intersectionX1)
  let intersectionHeight := max 0 (intersectionY2 - intersectionY1)
  let intersectionArea := intersectionWidth * intersectionHeight
  let unionArea := box1Area + box2Area - intersectionArea
  [box1Area, box2Area, box1X2, box1Y2, box2X2, box2Y2,
    intersectionX1, intersectionY1, intersectionX2, intersectionY2,
    intersectionX2 - intersectionX1, intersectionWidth,
    intersectionY2 - intersectionY1, intersectionHeight,
    intersectionArea, box1Area + box2Area, unionArea,
    if unionArea > 0 then intersectionArea / unionArea else 0]

/-- A box whose `x`, `y`, `width` and `height` are integers with `|x|, |y| <= 2^26` and
`0 <= width, height <= 2^26`. -/
def smallIntegerBox (a : Box) : Prop :=
  ∃ x y w h : ℤ, a = ⟨x, y, w, h⟩ ∧
    -(2 : ℤ) ^ 26 ≤ x ∧ x ≤ (2 : ℤ) ^ 26 ∧ -(2 : ℤ) ^ 26 ≤ y ∧ y ≤ (2 : ℤ) ^ 26 ∧
    0 ≤ w ∧ w ≤ (2 : ℤ) ^ 26 ∧ 0 ≤ h ∧ h ≤ (2 : ℤ) ^ 26

/-! ## Intersection over union -/

/-- The intersection area computed by `calculateIoU`, as an expression of the corners. -/
def intersectionArea (box1 box2 : Box) : ℚ :=
  max 0 (min (box1.x + box1.width) (box2.x + box2.width) - max box1.x box2.x) *
    max 0 (min (box1.y + box1.height) (box2.y + box2.height) - max box1.y box2.y)

theorem unionArea_eq (a b : Box) :
    unionArea a b = a.width * a.height + b.width * b.height - intersectionArea a b := rfl

theorem calculateIoU_eq (a b : Box) :
    calculateIoU a b =
      if unionArea a b > 0 then intersectionArea a b / unionArea a b else 0 := rfl

theorem calculateIoUChecked_eq (a b : Box) :
    calculateIoUChecked a b =
      if unionArea a b > 0 then checkedDiv (intersectionArea a b) (unionArea a b)
      else some 0 := rfl

theorem intersectionArea_comm (a b : Box) : intersectionArea a b = intersectionArea b a := by
  unfold intersectionArea
  rw [min_comm (a.x + a.width), max_comm a.x, min_comm (a.y + a.height), max_comm a.y]

theorem unionArea_comm (a b : Box) : unionArea a b = unionArea b a := by
  rw [unionArea_eq, unionArea_eq, intersectionArea_comm a b]
  ring

theorem intersectionArea_nonneg (a b : Box) : 0 ≤ intersectionArea a b :=
  mul_nonneg (le_max_left _ _) (le_max_left _ _)

/-- The clipped overlap of two intervals is at most the length of the first. -/
theorem overlap_le_left (x w x' w' : ℚ) (hw : 0 ≤ w) :
    max 0 (min (x + w) (x' + w') - max x x') ≤ w := by
  apply max_le hw
  have h1 : min (x + w) (x' + w') ≤ x + w := min_le_left _ _
  have h2 : x ≤ max x x' := le_max_left _ _
  linarith

theorem intersectionArea_le_left (a b : Box) (hw : 0 ≤ a.width) (hh : 0 ≤ a.height) :
    intersectionArea a b ≤ a.width * a.height :=
  mul_le_mul (overlap_le_left _ _ _ _ hw) (overlap_le_left _ _ _ _ hh) (le_max_left _ _) hw

theorem intersectionArea_le_right (a b : Box) (hw : 0 ≤ b.width) (hh : 0 ≤ b.height) :
    intersectionArea a b ≤ b.width * b.height := by
  rw [intersectionArea_comm]
  exact intersectionArea_le_left b a hw hh

theorem intersectionArea_self (a : Box) (hw : 0 ≤ a.width) (hh : 0 ≤ a.height) :
    intersectionArea a a = a.width * a.height := by
  unfold intersectionArea
  simp [hw, hh]

theorem calculateIoU_comm (a b : Box) : calculateIoU a b = calculateIoU b a := by
  rw [calculateIoU_eq, calculateIoU_eq, unionArea_comm a b, intersectionArea_comm a b]

/-- Claim C6: `calculateIoU` is symmetric, `calculateIoU(a, b) = calculateIoU(b, a)` for
every two boxes. -/
theorem calculateIoU_symmetric (a b : Box) : calculateIoU a b = calculateIoU b a :=
  calculateIoU_comm a b

/-- Claim C7, as stated, fails: the box `[0, 0, 0, 5]` has non-negative width and height,
yet `calculateIoU` of the box with itself is `0`, not `1`. -/
theorem calculateIoU_self_flatBox :
    0 ≤ flatBox.width ∧ 0 ≤ flatBox.height ∧
      calculateIoU flatBox flatBox = 0 ∧ calculateIoU flatBox flatBox ≠ 1 := by
  have h : calculateIoU flatBox flatBox = 0 := by
    simp [calculateIoU_eq, unionArea_eq, intersectionArea, flatBox]
  refine ⟨?_, ?_, h, ?_⟩
  · simp [flatBox]
  · simp [flatBox]
  · rw [h]; norm_num

/-- In exact arithmetic, for a box of non-negative width and height, the formula of
`calculateIoU(a, a)` gives `1` when width and height are both positive, and `0` when
one of them is zero (the union area is then zero). -/
theorem calculateIoU_self_rational (a : Box) (hw : 0 ≤ a.width) (hh : 0 ≤ a.height) :
    (0 < a.width ∧ 0 < a.height → calculateIoU a a = 1) ∧
      (a.width = 0 ∨ a.height = 0 → calculateIoU a a = 0) := by
  have hu : unionArea a a = a.width * a.height := by
    rw [unionArea_eq, intersectionArea_self a hw hh]; ring
  constructor
  · rintro ⟨hw', hh'⟩
    have hpos : 0 < a.width * a.height := mul_pos hw' hh'
    rw [calculateIoU_eq, hu, intersectionArea_self a hw hh, if_pos hpos]
    exact div_self (ne_of_gt hpos)
  · intro h0
    have hz : a.width * a.height = 0 := by
      rcases h0 with h | h <;> simp [h]
    rw [calculateIoU_eq, hu, hz]
    simp

theorem exactInDouble_intCast (n : ℤ) (h₁ : -(2 : ℤ) ^ 53 ≤ n) (h₂ : n ≤ (2 : ℤ) ^ 53) :
    exactInDouble (n : ℚ) :=
  ⟨n, rfl, h₁, h₂⟩

/-- The values `calculateIoU` computes for a box of non-negative width and height and
itself, in exact arithmetic. -/
theorem calculateIoUSteps_self (a : Box) (hw : 0 ≤ a.width) (hh : 0 ≤ a.height) :
    calculateIoUSteps a a =
      [a.width * a.height, a.width * a.height, a.x + a.width, a.y + a.height,
        a.x + a.width, a.y + a.height, a.x, a.y, a.x + a.width, a.y + a.height,
        a.width, a.width, a.height, a.height, a.width * a.height,
        a.width * a.height + a.width * a.height, a.width * a.height,
        calculateIoU a a] := by
  have hi : intersectionArea a a = a.width * a.height := intersectionArea_self a hw hh
  have hu : unionArea a a = a.width * a.height := by rw [unionArea_eq, hi]; ring
  have hr : calculateIoU a a =
      if a.width * a.height > 0 then a.width * a.height / (a.width * a.height) else 0 := by
    rw [calculateIoU_eq, hu, hi]
  rw [hr]
  simp [calculateIoUSteps, hw, hh]

/-- Claim C7, amended: for a box whose `x`, `y`, `width`, `height` are integers with
`|x|, |y| <= 2^26` and `0 <= width, height <= 2^26`, every value `calculateIoU(a, a)`
computes is an integer of absolute value at most `2^53`, so the double computation is
exact, and the result is `1` when width and height are both positive and `0` when one
of them is zero (the union area is then zero). -/
theorem calculateIoU_self_exact (a : Box) (ha : smallIntegerBox a) :
    (∀ v ∈ calculateIoUSteps a a, exactInDouble v) ∧
      (0 < a.width ∧ 0 < a.height → calculateIoU a a = 1) ∧
      (a.width = 0 ∨ a.height = 0 → calculateIoU a a = 0) := by
  obtain ⟨x, y, w, h, rfl, hx₁, hx₂, hy₁, hy₂, hw₁, hw₂, hh₁, hh₂⟩ := ha
  have hwq : (0 : ℚ) ≤ (w : ℚ) := by exact_mod_cast hw₁
  have hhq : (0 : ℚ) ≤ (h : ℚ) := by exact_mod_cast hh₁
  have hself := calculateIoU_self_rational ⟨x, y, w, h⟩ hwq hhq
  have hA₁ : 0 ≤ w * h := mul_nonneg hw₁ hh₁
  have hA₂ : w * h ≤ (2 : ℤ) ^ 52 := by
    have := mul_le_mul hw₂ hh₂ hh₁ (by norm_num : (0 : ℤ) ≤ (2 : ℤ) ^ 26)
    calc w * h ≤ (2 : ℤ) ^ 26 * (2 : ℤ) ^ 26 := this
      _ = (2 : ℤ) ^ 52 := by norm_num
  have hres : exactInDouble (calculateIoU ⟨x, y, w, h⟩ ⟨x, y, w, h⟩) := by
    by_cases hpos : (0 : ℚ) < (w : ℚ) ∧ (0 : ℚ) < (h : ℚ)
    · rw [hself.1 hpos]
      exact ⟨1, by norm_num, by norm_num, by norm_num⟩
    · have hz : (w : ℚ) = 0 ∨ (h : ℚ) = 0 := by
        by_contra hne
        push_neg at hne
        exact hpos ⟨lt_of_le_of_ne hwq (Ne.symm hne.1), lt_of_le_of_ne hhq (Ne.symm hne.2)⟩
      rw [hself.2 hz]
      exact ⟨0, by norm_num, by norm_num, by norm_num⟩
  refine ⟨?_, hself.1, hself.2⟩
  intro v hv
  rw [calculateIoUSteps_self _ hwq hhq] at hv
  simp only [List.mem_cons, List.mem_singleton, List.not_mem_nil, or_false] at hv
  have hArea : exactInDouble ((w : ℚ) * (h : ℚ)) := by
    have := exactInDouble_intCast (w * h) (by linarith) (by linarith)
    rwa [Int.cast_mul] at this
  have hX2 : exactInDouble ((x : ℚ) + (w : ℚ)) := by
    have := exactInDouble_intCast (x + w) (by norm_num at *; linarith)
      (by norm_num at *; linarith)
    rwa [Int.cast_add] at this
  have hY2 : exactInDouble ((y : ℚ) + (h : ℚ)) := by
    have := exactInDouble_intCast (y + h) (by norm_num at *; linarith)
      (by norm_num at *; linarith)
    rwa [Int.cast_add] at this
  have hX : exactInDouble (x : ℚ) :=
    exactInDouble_intCast x (by norm_num at *; linarith) (by norm_num at *; linarith)
  have hY : exactInDouble (y : ℚ) :=
    exactInDouble_intCast y (by norm_num at *; linarith) (by norm_num at *; linarith)
  have hW : exactInDouble (w : ℚ) :=
    exactInDouble_intCast w (by norm_num at *; linarith) (by norm_num at *; linarith)
  have hH : exactInDouble (h : ℚ) :=
    exactInDouble_intCast h (by norm_num at *; linarith) (by norm_num at *; linarith)
  have hSum : exactInDouble ((w : ℚ) * (h : ℚ) + (w : ℚ) * (h : ℚ)) := by
    have := exactInDouble_intCast (w * h + w * h) (by norm_num at *; linarith)
      (by norm_num at *; linarith)
    rwa [Int.cast_add, Int.cast_mul] at this
  rcases hv with rfl | rfl | rfl | rfl | rfl | rfl | rfl | rfl | rfl | rfl | rfl | rfl |
    rfl | rfl | rfl | rfl | rfl | rfl
  all_goals first
    | exact hArea | exact hX2 | exact hY2 | exact hX | exact hY | exact hW | exact hH
    | exact hSum | exact hres

/-- The scenario of claim C7: `calculateIoU([0,0,10,10], [0,0,10,10]) = 1`, every computed
value being an integer within the exact range of doubles. -/
theorem calculateIoU_self_exact_witness :
    calculateIoU boxA boxA = 1 ∧ ∀ v ∈ calculateIoUSteps boxA boxA, exactInDouble v :=
  have hbox : smallIntegerBox boxA :=
    ⟨0, 0, 10, 10, by simp [boxA], by norm_num, by norm_num, by norm_num, by norm_num,
      by norm_num, by norm_num, by norm_num, by norm_num⟩
  ⟨(calculateIoU_self_exact boxA hbox).2.1 ⟨by simp [boxA], by simp [boxA]⟩,
    (calculateIoU_self_exact boxA hbox).1⟩

/-- Claim C8: two boxes of non-negative width and height without spatial overlap (one
entirely left of, right of, above or below the other, touching edges included) have
`calculateIoU = 0`. -/
theorem calculateIoU_disjoint (a b : Box)
    (_haw : 0 ≤ a.width) (_hah : 0 ≤ a.height) (_hbw : 0 ≤ b.width) (_hbh : 0 ≤ b.height)
    (hsep : a.x + a.width ≤ b.x ∨ b.x + b.width ≤ a.x ∨
      a.y + a.height ≤ b.y ∨ b.y + b.height ≤ a.y) :
    calculateIoU a b = 0 := by
  have hi : intersectionArea a b = 0 := by
    unfold intersectionArea
    rcases hsep with h | h | h | h
    · have h1 : min (a.x + a.width) (b.x + b.width) ≤ a.x + a.width := min_le_left _ _
      have h2 : b.x ≤ max a.x b.x := le_max_right _ _
      rw [max_eq_left (by linarith), zero_mul]
    · have h1 : min (a.x + a.width) (b.x + b.width) ≤ b.x + b.width := min_le_right _ _
      have h2 : a.x ≤ max a.x b.x := le_max_left _ _
      rw [max_eq_left (by linarith), zero_mul]
    · have h1 : min (a.y + a.height) (b.y + b.height) ≤ a.y + a.height := min_le_left _ _
      have h2 : b.y ≤ max a.y b.y := le_max_right _ _
      rw [max_eq_left (a := (0 : ℚ)) (b := min (a.y + a.height) (b.y + b.height) - max a.y b.y)
        (by linarith), mul_zero]
    · have h1 : min (a.y + a.height) (b.y + b.height) ≤ b.y + b.height := min_le_right _ _
      have h2 : a.y ≤ max a.y b.y := le_max_left _ _
      rw [max_eq_left (a := (0 : ℚ)) (b := min (a.y + a.height) (b.y + b.height) - max a.y b.y)
        (by linarith), mul_zero]
  rw [calculateIoU_eq, hi]
  simp

/-- The scenario of claim C8: `calculateIoU([0,0,10,10], [20,20,10,10]) = 0`. -/
theorem calculateIoU_disjoint_witness : calculateIoU boxA boxB = 0 :=
  calculateIoU_disjoint boxA boxB (by simp [boxA]) (by simp [boxA]) (by simp [boxB])
    (by simp [boxB]) (Or.inl (by norm_num [boxA, boxB]))

/-- Claim C9: `calculateIoU` performs its division only with a union area greater than
`0`, so the division never has a zero divisor (the checked computation always succeeds
and agrees with `calculateIoU`); when the union area is zero, as for two zero-area
boxes, the result is `0`. -/
theorem calculateIoU_never_divides_by_zero (a b : Box) :
    calculateIoUChecked a b = some (calculateIoU a b) ∧
      (calculateIoUChecked a b ≠ some 0 → 0 < unionArea a b) ∧
      (unionArea a b = 0 → calculateIoU a b = 0) ∧
      (unionArea pointBox pointBox = 0 ∧ calculateIoU pointBox pointBox = 0) := by
  refine ⟨?_, ?_, ?_, ?_, ?_⟩
  · rw [calculateIoUChecked_eq, calculateIoU_eq]
    by_cases h : unionArea a b > 0
    · rw [if_pos h, if_pos h, checkedDiv, if_neg (ne_of_gt h)]
    · rw [if_neg h, if_neg h]
  · intro hne
    by_contra h
    exact hne (by rw [calculateIoUChecked_eq, if_neg h])
  · intro h0
    rw [calculateIoU_eq, h0]
    simp
  · simp [unionArea_eq, intersectionArea, pointBox]
  · simp [calculateIoU_eq, unionArea_eq, intersectionArea, pointBox]

/-- An instance of claim C9: two zero-area boxes have union area `0`, no division is
performed and the result is `0`. -/
theorem calculateIoU_never_divides_by_zero_witness :
    calculateIoUChecked pointBox pointBox = some 0 ∧ calculateIoU pointBox pointBox = 0 := by
  have h := calculateIoU_never_divides_by_zero pointBox pointBox
  have h0 : calculateIoU pointBox pointBox = 0 := h.2.2.1 h.2.2.2.1
  exact ⟨by rw [h.1, h0], h0⟩

/-- Claim C10: for two boxes of non-negative width and height, the value of
`calculateIoU` lies between `0` and `1` inclusive. -/
theorem calculateIoU_bounds (a b : Box)
    (haw : 0 ≤ a.width) (hah : 0 ≤ a.height) (hbw : 0 ≤ b.width) (hbh : 0 ≤ b.height) :
    0 ≤ calculateIoU a b ∧ calculateIoU a b ≤ 1 := by
  have hi0 := intersectionArea_nonneg a b
  have hia := intersectionArea_le_left a b haw hah
  have hib := intersectionArea_le_right a b hbw hbh
  rw [calculateIoU_eq]
  by_cases h : unionArea a b > 0
  · rw [if_pos h]
    refine ⟨div_nonneg hi0 (le_of_lt h), ?_⟩
    rw [div_le_one h, unionArea_eq]
    linarith
  · rw [if_neg h]
    exact ⟨le_refl _, zero_le_one⟩

/-- An instance of claim C10: the overlapping boxes `[0,0,17,10]` and `[3,0,17,10]`. -/
theorem calculateIoU_bounds_witness :
    0 ≤ calculateIoU boxC boxD ∧ calculateIoU boxC boxD ≤ 1 :=
  calculateIoU_bounds boxC boxD (by simp [boxC]) (by simp [boxC]) (by simp [boxD])
    (by simp [boxD])

/-! ## Non-maximum suppression: the loops -/

/-- The inner loop, started `n` positions from the front, filters the first `n`
detections and leaves the others in place. -/
theorem removeDuplicates_take (t : ℚ) (c : Detection) :
    ∀ (n : Nat) (l : List Detection), n ≤ l.length →
      removeDuplicates t c n l =
        (l.take n).filter (fun d => !isDuplicate t c d) ++ l.drop n := by
  intro n
  induction n with
  | zero => intro l _; simp [removeDuplicates]
  | succ n ih =>
    intro l hn
    have hlt : n < l.length := hn
    have hget : l[n]? = some l[n] := List.getElem?_eq_getElem hlt
    unfold removeDuplicates
    rw [hget]
    simp only [List.take_succ, hget, Option.toList_some, List.filter_append]
    by_cases hd : isDuplicate t c l[n] = true
    · rw [if_pos hd]
      have hlen : n ≤ (l.eraseIdx n).length := by
        rw [List.length_eraseIdx, if_pos hlt]; omega
      rw [ih _ hlen, List.eraseIdx_eq_take_drop_succ]
      have htl : (l.take n).length = n := List.length_take_of_le (le_of_lt hlt)
      rw [List.take_append_of_le_length (le_of_eq htl.symm), List.take_take, min_self]
      rw [List.drop_append_of_le_length (le_of_eq htl.symm)]
      have hdrop : List.drop n (List.take n l) = [] := by
        apply List.drop_eq_nil_of_le; omega
      simp [hdrop, List.filter, hd]
    · rw [if_neg hd, ih l (le_of_lt hlt), List.drop_eq_getElem_cons hlt]
      simp [List.filter, hd]

/-- The inner loop of lines 160-171 is a filter: it keeps, in order, the detections that
are not duplicates of `currentDetection`. -/
theorem removeDuplicates_eq_filter (t : ℚ) (c : Detection) (l : List Detection) :
    removeDuplicates t c l.length l = l.filter (fun d => !isDuplicate t c d) := by
  rw [removeDuplicates_take t c l.length l (le_refl _)]
  simp

theorem nmsLoop_nil (t : ℚ) (sel : List Detection) : nmsLoop t [] sel = sel := by
  rw [nmsLoop]

theorem nmsLoop_cons (t : ℚ) (c : Detection) (rest sel : List Detection) :
    nmsLoop t (c :: rest) sel =
      nmsLoop t (rest.filter (fun d => !isDuplicate t c d)) (sel ++ [c]) := by
  rw [nmsLoop, removeDuplicates_eq_filter]

/-- Induction along the iterations of the `while` loop. -/
theorem nms_induction (t : ℚ) (P : List Detection → Prop) (hnil : P [])
    (hcons : ∀ c rest, P (rest.filter (fun d => !isDuplicate t c d)) → P (c :: rest)) :
    ∀ l, P l := by
  intro l
  generalize hn : l.length = n
  induction n using Nat.strong_induction_on generalizing l with
  | _ n ih =>
    cases l with
    | nil => exact hnil
    | cons c rest =>
      apply hcons
      apply ih (rest.filter (fun d => !isDuplicate t c d)).length _ _ rfl
      rw [← hn, List.length_cons]
      exact Nat.lt_succ_of_le (List.length_filter_le _ _)

/-- The selection accumulated so far is a prefix of the result. -/
theorem nmsLoop_append (t : ℚ) (l : List Detection) :
    ∀ sel, nmsLoop t l sel = sel ++ nmsLoop t l [] := by
  induction l using nms_induction t with
  | hnil => intro sel; simp [nmsLoop_nil]
  | hcons c rest ih =>
    intro sel
    rw [nmsLoop_cons, nmsLoop_cons, ih (sel ++ [c]), ih ([] ++ [c])]
    simp

/-- One iteration: the head is selected, the loop goes on with the filtered rest. -/
theorem nmsLoop_step (t : ℚ) (c : Detection) (rest : List Detection) :
    nmsLoop t (c :: rest) [] =
      c :: nmsLoop t (rest.filter (fun d => !isDuplicate t c d)) [] := by
  rw [nmsLoop_cons, nmsLoop_append]
  simp

theorem applyNonMaxSuppression_some (t : ℚ) (D : List Detection) :
    applyNonMaxSuppression (some D) t = nmsLoop t (sortDetections D) [] := by
  cases D with
  | nil => simp [applyNonMaxSuppression, sortDetections, nmsLoop_nil]
  | cons d ds => rfl

/-- The selection is a sub-sequence of the sorted candidates. -/
theorem nmsLoop_sublist (t : ℚ) (l : List Detection) : (nmsLoop t l []).Sublist l := by
  induction l using nms_induction t with
  | hnil => rw [nmsLoop_nil]
  | hcons c rest ih =>
    rw [nmsLoop_step]
    exact (ih.trans (List.filter_sublist _)).cons₂ c

/-- No selected detection is a duplicate of a detection selected before it. -/
theorem nmsLoop_pairwise (t : ℚ) (l : List Detection) :
    (nmsLoop t l []).Pairwise (fun c d => isDuplicate t c d = false) := by
  induction l using nms_induction t with
  | hnil => rw [nmsLoop_nil]; exact List.Pairwise.nil
  | hcons c rest ih =>
    rw [nmsLoop_step]
    refine List.Pairwise.cons ?_ ih
    intro d hd
    have hmem := (nmsLoop_sublist t _).subset hd
    simpa using (List.mem_filter.mp hmem).2

/-- A list without duplicates in the sense of the loop is selected whole. -/
theorem nmsLoop_of_pairwise (t : ℚ) :
    ∀ l : List Detection, l.Pairwise (fun c d => isDuplicate t c d = false) →
      nmsLoop t l [] = l := by
  intro l
  induction l using nms_induction t with
  | hnil => intro _; rw [nmsLoop_nil]
  | hcons c rest ih =>
    intro hp
    rw [List.pairwise_cons] at hp
    have hf : rest.filter (fun d => !isDuplicate t c d) = rest := by
      rw [List.filter_eq_self]
      intro d hd
      simp [hp.1 d hd]
    rw [nmsLoop_step]
    rw [hf] at ih ⊢
    rw [ih hp.2]

theorem isDuplicate_iff (t : ℚ) (c d : Detection) :
    isDuplicate t c d = true ↔ d.class_ = c.class_ ∧ t < calculateIoU d.bbox c.bbox := by
  simp [isDuplicate]

/-! ## The stable sort by descending score -/

theorem insertByScore_perm (x : Detection) :
    ∀ l : List Detection, (insertByScore x l).Perm (x :: l) := by
  intro l
  induction l with
  | nil => exact List.Perm.refl _
  | cons y ys ih =>
    unfold insertByScore
    split
    · exact List.Perm.refl _
    · exact (List.Perm.cons y ih).trans (List.Perm.swap x y ys)

theorem sortDetections_perm : ∀ l : List Detection, (sortDetections l).Perm l := by
  intro l
  induction l with
  | nil => exact List.Perm.refl _
  | cons x xs ih =>
    unfold sortDetections
    exact (insertByScore_perm x _).trans (List.Perm.cons x ih)

theorem insertByScore_sorted (x : Detection) :
    ∀ l : List Detection, l.Pairwise (fun a b => b.score ≤ a.score) →
      (insertByScore x l).Pairwise (fun a b => b.score ≤ a.score) := by
  intro l
  induction l with
  | nil => intro _; simp [insertByScore]
  | cons y ys ih =>
    intro hp
    rw [List.pairwise_cons] at hp
    unfold insertByScore
    split
    · rename_i hxy
      have hyx : y.score ≤ x.score := by
        unfold compareScore at hxy; linarith
      refine List.Pairwise.cons ?_ (List.Pairwise.cons hp.1 hp.2)
      intro z hz
      rcases List.mem_cons.mp hz with rfl | hz
      · exact hyx
      · exact le_trans (hp.1 z hz) hyx
    · rename_i hxy
      have hyx : x.score ≤ y.score := by
        unfold compareScore at hxy; linarith
      refine List.Pairwise.cons ?_ (ih hp.2)
      intro z hz
      rcases List.mem_cons.mp ((insertByScore_perm x ys).subset hz) with rfl | hz
      · exact hyx
      · exact hp.1 z hz

/-- The sorted copy is in non-increasing order of score. -/
theorem sortDetections_sorted :
    ∀ l : List Detection, (sortDetections l).Pairwise (fun a b => b.score ≤ a.score) := by
  intro l
  induction l with
  | nil => exact List.Pairwise.nil
  | cons x xs ih =>
    unfold sortDetections
    exact insertByScore_sorted x _ ih

/-- Sorting a list already in non-increasing order of score changes nothing. -/
theorem sortDetections_of_sorted :
    ∀ l : List Detection, l.Pairwise (fun a b => b.score ≤ a.score) →
      sortDetections l = l := by
  intro l
  induction l with
  | nil => intro _; rfl
  | cons x xs ih =>
    intro hp
    rw [List.pairwise_cons] at hp
    unfold sortDetections
    rw [ih hp.2]
    cases xs with
    | nil => rfl
    | cons y ys =>
      unfold insertByScore
      have hyx : y.score ≤ x.score := hp.1 y (List.mem_cons_self _ _)
      rw [if_pos (by unfold compareScore; linarith)]

/-- Stability of the insertion: among the detections of one score, the inserted one
comes first and the others keep their order. -/
theorem insertByScore_filter_score (x : Detection) (s : ℚ) :
    ∀ l : List Detection,
      (insertByScore x l).filter (fun d => decide (d.score = s)) =
        (x :: l).filter (fun d => decide (d.score = s)) := by
  intro l
  induction l with
  | nil => rfl
  | cons y ys ih =>
    unfold insertByScore
    split
    · rfl
    · rename_i hxy
      have hne : x.score ≠ y.score := by
        intro h; apply hxy; unfold compareScore; linarith
      rw [List.filter_cons, ih]
      by_cases hx : x.score = s
      · have hy : ¬ y.score = s := fun h => hne (hx.trans h.symm)
        simp [List.filter_cons, hx, hy]
      · simp [List.filter_cons, hx]

/-- Stability of the sort: the detections of one score keep their relative order. -/
theorem sortDetections_filter_score (s : ℚ) :
    ∀ l : List Detection,
      (sortDetections l).filter (fun d => decide (d.score = s)) =
        l.filter (fun d => decide (d.score = s)) := by
  intro l
  induction l with
  | nil => rfl
  | cons x xs ih =>
    unfold sortDetections
    rw [insertByScore_filter_score, List.filter_cons, ih, List.filter_cons]

/-! ## Non-maximum suppression: the properties of the specification -/

theorem calculateIoU_boxC_boxD : calculateIoU boxC boxD = 7 / 10 := by
  norm_num [calculateIoU_eq, unionArea_eq, intersectionArea, boxC, boxD]

theorem calculateIoU_boxD_boxC : calculateIoU boxD boxC = 7 / 10 := by
  norm_num [calculateIoU_eq, unionArea_eq, intersectionArea, boxC, boxD]

theorem isDuplicate_personHigh_personLow : isDuplicate (1 / 2) personHigh personLow = true := by
  rw [isDuplicate_iff]
  refine ⟨rfl, ?_⟩
  show (1 / 2 : ℚ) < calculateIoU boxD boxC
  rw [calculateIoU_boxD_boxC]
  norm_num

theorem sortDetections_low_high :
    sortDetections [personLow, personHigh] = [personHigh, personLow] := by
  have h : ¬ compareScore personLow personHigh ≤ 0 := by
    norm_num [compareScore, personLow, personHigh]
  simp [sortDetections, insertByScore, h]

/-- The scenario of the specification, evaluated: the duplicate with confidence `0.6` is
suppressed. -/
theorem applyNonMaxSuppression_low_high :
    applyNonMaxSuppression (some [personLow, personHigh]) (1 / 2) = [personHigh] := by
  have hf : [personLow].filter (fun d => !isDuplicate (1 / 2) personHigh d) = [] := by
    simp only [List.filter, isDuplicate_personHigh_personLow, Bool.not_true]
  rw [applyNonMaxSuppression_some, sortDetections_low_high, nmsLoop_step, hf, nmsLoop_nil]

/-- The output is a sub-sequence of the sorted copy of the input. -/
theorem applyNonMaxSuppression_sublist (D : List Detection) (t : ℚ) :
    (applyNonMaxSuppression (some D) t).Sublist (sortDetections D) := by
  rw [applyNonMaxSuppression_some]
  exact nmsLoop_sublist t _

/-- Every candidate the loop removes has a selected detection of the same class, with a
score at least as high, whose IoU with it exceeds the threshold. -/
theorem nmsLoop_removed (t : ℚ) :
    ∀ l : List Detection, l.Pairwise (fun a b => b.score ≤ a.score) →
      ∀ d, (nmsLoop t l []).count d < l.count d →
        ∃ k ∈ nmsLoop t l [],
          k.class_ = d.class_ ∧ d.score ≤ k.score ∧ t < calculateIoU d.bbox k.bbox := by
  intro l
  induction l using nms_induction t with
  | hnil => intro _ d h; simp [nmsLoop_nil] at h
  | hcons c rest ih =>
    intro hp d hlt
    rw [List.pairwise_cons] at hp
    rw [nmsLoop_step] at hlt ⊢
    rw [List.count_cons, List.count_cons] at hlt
    have hlt' : (nmsLoop t (rest.filter (fun d => !isDuplicate t c d)) []).count d
        < rest.count d := by omega
    by_cases hd : isDuplicate t c d = true
    · have hmem : d ∈ rest := List.count_pos_iff.mp (by omega)
      obtain ⟨hcl, hiou⟩ := (isDuplicate_iff t c d).mp hd
      exact ⟨c, List.mem_cons_self _ _, hcl.symm, hp.1 d hmem, hiou⟩
    · have hkeep : (rest.filter (fun d => !isDuplicate t c d)).count d = rest.count d :=
        List.count_filter (by simp [hd])
      rw [← hkeep] at hlt'
      obtain ⟨k, hk, hprop⟩ := ih (hp.2.sublist (List.filter_sublist _)) d hlt'
      exact ⟨k, List.mem_cons_of_mem _ hk, hprop⟩

/-- The output is in non-increasing order of score. -/
theorem applyNonMaxSuppression_sorted (D : List Detection) (t : ℚ) :
    (applyNonMaxSuppression (some D) t).Pairwise (fun a b => b.score ≤ a.score) :=
  (sortDetections_sorted D).sublist (applyNonMaxSuppression_sublist D t)

/-- No output detection is a duplicate of an output detection before it. -/
theorem applyNonMaxSuppression_pairwise (D : List Detection) (t : ℚ) :
    (applyNonMaxSuppression (some D) t).Pairwise (fun c d => isDuplicate t c d = false) := by
  rw [applyNonMaxSuppression_some]
  exact nmsLoop_pairwise t _

/-- Claim C1: `applyNonMaxSuppression` is idempotent: applied to its own output with the
same threshold it returns that output, the same detections in the same order (for a
detection list or `null`). -/
theorem applyNonMaxSuppression_idempotent (D : Option (List Detection)) (t : ℚ) :
    applyNonMaxSuppression (some (applyNonMaxSuppression D t)) t =
      applyNonMaxSuppression D t := by
  cases D with
  | none => rfl
  | some D =>
    rw [applyNonMaxSuppression_some t (applyNonMaxSuppression (some D) t),
      sortDetections_of_sorted _ (applyNonMaxSuppression_sorted D t)]
    exact nmsLoop_of_pairwise t _ (applyNonMaxSuppression_pairwise D t)

/-- Claim C2: for two detections `a`, `b` of the same class with `a.score > b.score` and
`calculateIoU(a.bbox, b.bbox) > t`, `applyNonMaxSuppression` with threshold `t` returns
exactly `[a]` for the input `[a, b]` and for the input `[b, a]`. -/
theorem applyNonMaxSuppression_pair (a b : Detection) (t : ℚ)
    (hclass : a.class_ = b.class_) (hscore : b.score < a.score)
    (hiou : t < calculateIoU a.bbox b.bbox) :
    applyNonMaxSuppression (some [a, b]) t = [a] ∧
      applyNonMaxSuppression (some [b, a]) t = [a] := by
  have hdup : isDuplicate t a b = true := by
    rw [isDuplicate_iff, calculateIoU_comm]
    exact ⟨hclass.symm, hiou⟩
  have hf : [b].filter (fun d => !isDuplicate t a d) = [] := by
    simp only [List.filter, hdup, Bool.not_true]
  have hab : sortDetections [a, b] = [a, b] := by
    have h : compareScore a b ≤ 0 := by unfold compareScore; linarith
    simp [sortDetections, insertByScore, h]
  have hba : sortDetections [b, a] = [a, b] := by
    have h : ¬ compareScore b a ≤ 0 := by unfold compareScore; linarith
    simp [sortDetections, insertByScore, h]
  constructor
  · rw [applyNonMaxSuppression_some, hab, nmsLoop_step, hf, nmsLoop_nil]
  · rw [applyNonMaxSuppression_some, hba, nmsLoop_step, hf, nmsLoop_nil]

/-- The scenario of claim C2: confidences `0.9` and `0.6`, IoU `0.7`, threshold `0.5`;
exactly one detection is left, the one with confidence `0.9`. -/
theorem applyNonMaxSuppression_pair_witness :
    calculateIoU personHigh.bbox personLow.bbox = 7 / 10 ∧
      personHigh.score = 9 / 10 ∧ personLow.score = 6 / 10 ∧
      applyNonMaxSuppression (some [personHigh, personLow]) (1 / 2) = [personHigh] ∧
      applyNonMaxSuppression (some [personLow, personHigh]) (1 / 2) = [personHigh] :=
  ⟨calculateIoU_boxC_boxD, rfl, rfl,
    applyNonMaxSuppression_pair personHigh personLow (1 / 2) rfl
      (by norm_num [personHigh, personLow])
      (by show (1 / 2 : ℚ) < calculateIoU boxC boxD
          rw [calculateIoU_boxC_boxD]; norm_num)⟩

/-- Claim C3: every detection of `D` missing from `applyNonMaxSuppression(D, t)` (more
generally, occurring there less often than in `D`) has in the output a detection of
the same class, with a confidence at least as high, whose IoU with it is greater than
`t`; and a list whose detections have pairwise different classes loses no detection. -/
theorem applyNonMaxSuppression_removed (D : List Detection) (t : ℚ) :
    (∀ d ∈ D, d ∉ applyNonMaxSuppression (some D) t →
      ∃ k ∈ applyNonMaxSuppression (some D) t,
        k.class_ = d.class_ ∧ d.score ≤ k.score ∧ t < calculateIoU d.bbox k.bbox) ∧
    (∀ d, (applyNonMaxSuppression (some D) t).count d < D.count d →
      ∃ k ∈ applyNonMaxSuppression (some D) t,
        k.class_ = d.class_ ∧ d.score ≤ k.score ∧ t < calculateIoU d.bbox k.bbox) ∧
    (D.Pairwise (fun a b => a.class_ ≠ b.class_) →
      (applyNonMaxSuppression (some D) t).Perm D) := by
  have hcount : ∀ d, (applyNonMaxSuppression (some D) t).count d < D.count d →
      ∃ k ∈ applyNonMaxSuppression (some D) t,
        k.class_ = d.class_ ∧ d.score ≤ k.score ∧ t < calculateIoU d.bbox k.bbox := by
    intro d hd
    rw [applyNonMaxSuppression_some] at hd ⊢
    rw [← (sortDetections_perm D).count_eq d] at hd
    exact nmsLoop_removed t _ (sortDetections_sorted D) d hd
  refine ⟨?_, hcount, ?_⟩
  · intro d hd hnot
    apply hcount
    rw [List.count_eq_zero_of_not_mem hnot]
    exact List.count_pos_iff.mpr hd
  · intro hp
    have hp' : (sortDetections D).Pairwise (fun a b => a.class_ ≠ b.class_) :=
      ((sortDetections_perm D).pairwise_iff (fun h => Ne.symm h)).mpr hp
    have hk : (sortDetections D).Pairwise (fun c d => isDuplicate t c d = false) := by
      refine hp'.imp ?_
      intro c d hne
      rw [← Bool.not_eq_true, isDuplicate_iff]
      exact fun h => hne h.1.symm
    rw [applyNonMaxSuppression_some, nmsLoop_of_pairwise t _ hk]
    exact sortDetections_perm D

/-- An instance of claim C3: the suppressed duplicate `personLow` is covered by
`personHigh`, and a dog in the same box as `personLow` is not removed. -/
theorem applyNonMaxSuppression_removed_witness :
    (∃ k ∈ applyNonMaxSuppression (some [personLow, personHigh]) (1 / 2),
      k.class_ = personLow.class_ ∧ personLow.score ≤ k.score ∧
        1 / 2 < calculateIoU personLow.bbox k.bbox) ∧
    (applyNonMaxSuppression (some [dogLow, personHigh]) (1 / 2)).Perm [dogLow, personHigh] :=
  ⟨(applyNonMaxSuppression_removed [personLow, personHigh] (1 / 2)).1 personLow
      (List.mem_cons_self _ _)
      (by rw [applyNonMaxSuppression_low_high]
          simp [personLow, personHigh, boxC, boxD]),
    (applyNonMaxSuppression_removed [dogLow, personHigh] (1 / 2)).2.2
      (by simp [dogLow, personHigh])⟩

/-- Claim C4: `applyNonMaxSuppression(D, t)` has at most as many detections as `D`, every
output detection is a detection of `D` and occurs in the output no more often than in
`D`; for a `null` or empty `D` the output is the empty list. -/
theorem applyNonMaxSuppression_subset (D : List Detection) (t : ℚ) :
    (applyNonMaxSuppression (some D) t).length ≤ D.length ∧
    (∀ d ∈ applyNonMaxSuppression (some D) t, d ∈ D) ∧
    (∀ d, (applyNonMaxSuppression (some D) t).count d ≤ D.count d) ∧
    applyNonMaxSuppression none t = [] ∧
    applyNonMaxSuppression (some []) t = [] := by
  have hsub := applyNonMaxSuppression_sublist D t
  have hperm := sortDetections_perm D
  refine ⟨?_, ?_, ?_, rfl, rfl⟩
  · exact le_of_le_of_eq hsub.length_le hperm.length_eq
  · intro d hd
    exact hperm.subset (hsub.subset hd)
  · intro d
    exact le_of_le_of_eq (hsub.count_le d) (hperm.count_eq d)

/-- Claim C5: the output of `applyNonMaxSuppression(D, t)` is in non-increasing order of
confidence, and the output detections of any one confidence appear in the relative
order they had in `D` (they form a sub-sequence of the detections of that confidence
in `D`). -/
theorem applyNonMaxSuppression_order (D : List Detection) (t : ℚ) :
    (applyNonMaxSuppression (some D) t).Pairwise (fun a b => b.score ≤ a.score) ∧
    ∀ s : ℚ, ((applyNonMaxSuppression (some D) t).filter
        (fun d => decide (d.score = s))).Sublist
      (D.filter (fun d => decide (d.score = s))) := by
  refine ⟨applyNonMaxSuppression_sorted D t, ?_⟩
  intro s
  rw [← sortDetections_filter_score s D]
  exact (applyNonMaxSuppression_sublist D t).filter _

/-! ## Filtering by confidence and class -/

theorem filterDetections_keep_iff (c : ℚ) (F : List String) (d : Detection) :
    (if d.score < c then false
      else if F.length > 0 then F.contains d.class_ else true) =
    decide (d.score ≥ c ∧ (F = [] ∨ d.class_ ∈ F)) := by
  by_cases hs : d.score < c
  · have hn : ¬ (d.score ≥ c) := not_le.mpr hs
    simp [hs, hn]
  · have hge : d.score ≥ c := not_lt.mp hs
    cases F with
    | nil => simp [hs, hge]
    | cons a as => simp [hs, hge]

/-- Claim C11: `filterDetections(R, c, F)` is exactly the sub-sequence of `R`, in the
original order, of the detections with `score >= c` and (`F` empty or `class ∈ F`), the
filter the specification describes; a detection whose score equals `c` is kept. -/
theorem filterDetections_spec (R : List Detection) (c : ℚ) (F : List String) :
    filterDetections (some R) c F = filterByConfidenceAndClass R c F ∧
    (filterDetections (some R) c F).Sublist R ∧
    (∀ d, d ∈ filterDetections (some R) c F ↔
      d ∈ R ∧ d.score ≥ c ∧ (F = [] ∨ d.class_ ∈ F)) ∧
    (∀ d ∈ R, d.score = c → (F = [] ∨ d.class_ ∈ F) →
      d ∈ filterDetections (some R) c F) := by
  have heq : filterDetections (some R) c F = filterByConfidenceAndClass R c F := by
    simp only [filterDetections, filterByConfidenceAndClass]
    congr 1
    funext d
    exact filterDetections_keep_iff c F d
  have hmem : ∀ d, d ∈ filterDetections (some R) c F ↔
      d ∈ R ∧ d.score ≥ c ∧ (F = [] ∨ d.class_ ∈ F) := by
    intro d
    rw [heq]
    unfold filterByConfidenceAndClass
    rw [List.mem_filter, decide_eq_true_iff]
  refine ⟨heq, ?_, hmem, ?_⟩
  · rw [heq]
    exact List.filter_sublist _
  · intro d hd hs hF
    exact (hmem d).mpr ⟨hd, ge_of_eq hs, hF⟩

/-- An instance of claim C11: with threshold `0.5` and class list `["cat"]`, the cat of
confidence exactly `0.5` is kept and the dog is dropped. -/
theorem filterDetections_spec_witness :
    catHalf ∈ filterDetections (some [dogZero, catHalf, dogLow]) (1 / 2) ["cat"] ∧
      dogLow ∉ filterDetections (some [dogZero, catHalf, dogLow]) (1 / 2) ["cat"] := by
  have h := filterDetections_spec [dogZero, catHalf, dogLow] (1 / 2) ["cat"]
  constructor
  · exact h.2.2.2 catHalf (by simp) rfl (Or.inr (by simp [catHalf]))
  · intro hmem
    have h3 := ((h.2.2.1 dogLow).mp hmem).2.2
    simp [dogLow] at h3

/-- Claim C12: for a detection list `R` whose confidences lie in `[0, 1]`,
`filterDetections(R, 0, [])` returns `R` unchanged. -/
theorem filterDetections_zero_nil (R : List Detection)
    (hR : ∀ d ∈ R, 0 ≤ d.score ∧ d.score ≤ 1) :
    filterDetections (some R) 0 [] = R := by
  simp only [filterDetections]
  rw [List.filter_eq_self]
  intro d hd
  have h0 : ¬ d.score < 0 := not_lt.mpr (hR d hd).1
  simp [h0]

/-- An instance of claim C12: a list with confidences `0`, `0.5` and `0.9`. -/
theorem filterDetections_zero_nil_witness :
    filterDetections (some [dogZero, catHalf, personHigh]) 0 [] =
      [dogZero, catHalf, personHigh] :=
  filterDetections_zero_nil [dogZero, catHalf, personHigh] (by
    intro d hd
    simp only [List.mem_cons, List.mem_singleton, List.not_mem_nil, or_false] at hd
    rcases hd with rfl | rfl | rfl <;> norm_num [dogZero, catHalf, personHigh])

/-! ## Running a model -/

theorem faceAdapter_raw (f : Face) : faceAdapter f.raw = .ok f.record := rfl

theorem mapFaces_raw : ∀ faces : List Face,
    mapFaces (faces.map Face.raw) = .ok (faces.map Face.record) := by
  intro faces
  induction faces with
  | nil => rfl
  | cons f fs ih =>
    simp only [List.map_cons, mapFaces, faceAdapter_raw, ih]

/-- A face prediction without one of its fields makes the mapping raise. -/
theorem faceAdapter_missing (q : FacePrediction)
    (h : q.topLeft = none ∨ q.bottomRight = none ∨ q.probability = none) :
    faceAdapter q = .error .typeError := by
  obtain ⟨tl, br, pr⟩ := q
  simp only at h
  rcases h with h | h | h
  · subst h; rfl
  · subst h
    rcases tl with _ | ⟨_ | _⟩ <;> rfl
  · subst h
    rcases tl with _ | ⟨_ | _⟩ <;> rcases br with _ | ⟨_ | _⟩ <;> rfl

theorem mapFaces_missing : ∀ preds : List FacePrediction,
    (∃ q ∈ preds, q.topLeft = none ∨ q.bottomRight = none ∨ q.probability = none) →
      ∃ e, mapFaces preds = .error e := by
  intro preds
  induction preds with
  | nil => rintro ⟨q, hq, _⟩; cases hq
  | cons a as ih =>
    rintro ⟨q, hq, hmiss⟩
    unfold mapFaces
    cases ha : faceAdapter a with
    | error e => exact ⟨e, rfl⟩
    | ok r =>
      have hq' : q ∈ as := by
        rcases List.mem_cons.mp hq with rfl | h
        · rw [faceAdapter_missing q hmiss] at ha; cases ha
        · exact h
      obtain ⟨e, he⟩ := ih ⟨q, hq', hmiss⟩
      exact ⟨e, by simp only [he]⟩

/-- The promise of `detectObjects` never rejects. -/
theorem detectObjects_resolves (model : Option Model) (imageElement : Option Frame)
    (modelConfig : Option ModelConfig) :
    ∃ records, (detectObjects model imageElement modelConfig).result = .ok records := by
  unfold detectObjects
  cases model with
  | none => exact ⟨[], rfl⟩
  | some m =>
    cases imageElement with
    | none => exact ⟨[], rfl⟩
    | some f =>
      simp only
      cases (detectObjectsTry m f modelConfig).result with
      | error e => exact ⟨[], rfl⟩
      | ok r => exact ⟨r, rfl⟩

theorem detectObjects_blazeface_eq (model : Model) (frame : Frame) (cfg : ModelConfig)
    (preds : List FacePrediction) (htype : cfg.type = "blazeface")
    (hback : model.estimateFaces frame false = .returns preds) :
    detectObjectsTry model frame (some cfg) =
      ⟨mapFaces preds, [.estimateFaces frame false]⟩ := by
  have hne : ¬ cfg.type = "cocossd" := by rw [htype]; decide
  simp only [detectObjectsTry, if_neg hne, if_pos htype, hback]

theorem detectObjects_cocossd_eq (model : Model) (frame : Frame) (cfg : ModelConfig)
    (preds : List CocoPrediction) (htype : cfg.type = "cocossd")
    (hback : model.detect frame (scoreThresholdOf cfg) (maxDetectionsOf cfg) = .returns preds) :
    detectObjectsTry model frame (some cfg) =
      ⟨.ok (preds.map cocoAdapter),
        [.detect frame (scoreThresholdOf cfg) (maxDetectionsOf cfg)]⟩ := by
  simp only [detectObjectsTry, if_pos htype, hback]

/-- The conversion of the face adapter when the corners are tensors: with model type
`'blazeface'`, raw face predictions with tensor corners `(x1, y1)`, `(x2, y2)` and a
probability vector starting with `p` give the list, of the same length and order, of
the records `bbox = [x1, y1, x2 - x1, y2 - y1]`, `class = 'face'`, `score = p`;
`x + width` and `y + height` give back the bottom-right corner. The call of line 41
asks for plain values, for which see `detectObjects_blazeface_plain`. -/
theorem detectObjects_blazeface_tensor (model : Model) (frame : Frame) (cfg : ModelConfig)
    (faces : List Face) (htype : cfg.type = "blazeface")
    (hback : model.estimateFaces frame false = .returns (faces.map Face.raw)) :
    (detectObjects (some model) (some frame) (some cfg)).result =
        .ok (faces.map Face.record) ∧
      (faces.map Face.record).length = faces.length ∧
      ∀ f ∈ faces, ∃ b, f.record.bbox = some b ∧
        b.x = f.x1 ∧ b.y = f.y1 ∧ b.x + b.width = f.x2 ∧ b.y + b.height = f.y2 := by
  refine ⟨?_, List.length_map _ _, ?_⟩
  · simp only [detectObjects, detectObjects_blazeface_eq model frame cfg _ htype hback,
      mapFaces_raw]
  · intro f _
    exact ⟨_, rfl, rfl, rfl, by simp, by simp⟩

/-- With tensor corners the face with corners `(10, 20)`, `(50, 80)` and probability
`0.95` becomes the record with box `[10, 20, 40, 60]`. -/
theorem detectObjects_blazeface_tensor_example :
    (detectObjects (some (constModel [] [face0.raw])) (some frame0)
        (some blazefaceConfig)).result =
      .ok [⟨some ⟨10, 20, 40, 60⟩, some "face", some (19 / 20)⟩] := by
  have h := (detectObjects_blazeface_tensor (constModel [] [face0.raw]) frame0
    blazefaceConfig [face0] rfl rfl).1
  rw [h]
  norm_num [Face.record, face0]

/-- A face prediction with a plain-array corner makes the mapping raise. -/
theorem faceAdapter_plain (f : Face) : faceAdapter f.plain = .error .typeError := rfl

theorem mapFaces_plain : ∀ faces : List Face, faces ≠ [] →
    mapFaces (faces.map Face.plain) = .error .typeError := by
  intro faces hne
  cases faces with
  | nil => exact absurd rfl hne
  | cons f fs => simp only [List.map_cons, mapFaces, faceAdapter_plain]

/-- With the plain-array corners that `estimateFaces(element, false)` returns, every
non-empty list of faces is turned into the empty list: `arraySync` raises a `TypeError`
on the first face and the `catch` of lines 68-71 returns `[]`. -/
theorem detectObjects_blazeface_plain (model : Model) (frame : Frame) (cfg : ModelConfig)
    (faces : List Face) (htype : cfg.type = "blazeface")
    (hback : model.estimateFaces frame false = .returns (faces.map Face.plain))
    (hne : faces ≠ []) :
    (detectObjects (some model) (some frame) (some cfg)).result = .ok [] := by
  simp only [detectObjects, detectObjects_blazeface_eq model frame cfg _ htype hback,
    mapFaces_plain faces hne]

/-- Claim C13 fails on the code: with model type `'blazeface'` and the backend answering
line 41's `estimateFaces(element, false)` with the face
`{topLeft: [10, 20], bottomRight: [50, 80], probability: [0.95]}`, `detectObjects`
issues the call and returns the empty list, not the one-element list with the record
`bbox = [10, 20, 40, 60]`, `class = 'face'`, `score = 0.95` of the claim. -/
theorem detectObjects_blazeface_plain_array :
    (constModel [] [face0.plain]).estimateFaces frame0 false =
        .returns [⟨some (.array 10 20), some (.array 50 80), some [19 / 20]⟩] ∧
      (detectObjects (some (constModel [] [face0.plain])) (some frame0)
        (some blazefaceConfig)).calls = [.estimateFaces frame0 false] ∧
      (detectObjects (some (constModel [] [face0.plain])) (some frame0)
        (some blazefaceConfig)).result = .ok [] ∧
      face0.record = ⟨some ⟨10, 20, 50 - 10, 80 - 20⟩, some "face", some (19 / 20)⟩ ∧
      (detectObjects (some (constModel [] [face0.plain])) (some frame0)
        (some blazefaceConfig)).result ≠ .ok [face0.record] := by
  have h : (detectObjects (some (constModel [] [face0.plain])) (some frame0)
      (some blazefaceConfig)).result = .ok [] :=
    detectObjects_blazeface_plain (constModel [] [face0.plain]) frame0 blazefaceConfig
      [face0] rfl rfl (List.cons_ne_nil _ _)
  refine ⟨rfl, ?_, h, rfl, ?_⟩
  · simp only [detectObjects,
      detectObjects_blazeface_eq (constModel [] [face0.plain]) frame0 blazefaceConfig
        [face0.plain] rfl rfl]
    cases mapFaces [face0.plain] <;> rfl
  · rw [h]
    intro hcontra
    cases hcontra

/-- Claim C14: for a model configuration whose type is `'custom'` or any value other than
`'cocossd'` and `'blazeface'`, `detectObjects` resolves with the empty list and issues
no call to the model backend, whatever the model and the frame. -/
theorem detectObjects_unsupported (model : Option Model) (frame : Option Frame)
    (cfg : ModelConfig) (hcoco : cfg.type ≠ "cocossd") (hface : cfg.type ≠ "blazeface") :
    (detectObjects model frame (some cfg)).result = .ok [] ∧
      (detectObjects model frame (some cfg)).calls = [] := by
  cases model with
  | none => exact ⟨rfl, rfl⟩
  | some m =>
    cases frame with
    | none => exact ⟨rfl, rfl⟩
    | some f =>
      have h : detectObjectsTry m f (some cfg) = ⟨.ok [], []⟩ := by
        simp only [detectObjectsTry, if_neg hcoco, if_neg hface, ite_self]
      simp only [detectObjects, h, and_self]

/-- An instance of claim C14: the type `'custom'`, with a backend that would answer. -/
theorem detectObjects_unsupported_witness :
    (detectObjects (some (constModel [cocoNoBox] [face0.raw])) (some frame0)
        (some customConfig)).result = .ok [] ∧
      (detectObjects (some (constModel [cocoNoBox] [face0.raw])) (some frame0)
        (some customConfig)).calls = [] :=
  detectObjects_unsupported _ _ customConfig (by decide) (by decide)

/-- Claim C15, as stated, fails for `'cocossd'`: a prediction without `bbox` raises no
exception, and `detectObjects` returns a one-element list whose record has an undefined
`bbox`, not the empty list. -/
theorem detectObjects_cocossd_missing_bbox :
    cocoNoBox.bbox = none ∧
      (detectObjects (some (constModel [cocoNoBox] [])) (some frame0)
        (some cocoConfig)).result = .ok [⟨none, some "person", some (9 / 10)⟩] ∧
      (detectObjects (some (constModel [cocoNoBox] [])) (some frame0)
        (some cocoConfig)).result ≠ .ok [] := by
  have h : (detectObjects (some (constModel [cocoNoBox] [])) (some frame0)
      (some cocoConfig)).result = .ok [⟨none, some "person", some (9 / 10)⟩] := by
    simp only [detectObjects,
      detectObjects_cocossd_eq (constModel [cocoNoBox] []) frame0 cocoConfig [cocoNoBox]
        rfl rfl]
    rfl
  refine ⟨rfl, h, ?_⟩
  rw [h]
  intro hcontra
  cases hcontra

/-- Claim C15, amended: with `'blazeface'`, a raw output in which a prediction lacks
`topLeft`, `bottomRight` or `probability` gives the empty list; with `'cocossd'`,
`detectObjects` does not fail either, and returns one record per prediction, a missing
`bbox`, `class` or `score` being passed on as an undefined field. -/
theorem detectObjects_malformed (model : Model) (frame : Frame) (cfg : ModelConfig) :
    (∀ preds : List FacePrediction, cfg.type = "blazeface" →
      model.estimateFaces frame false = .returns preds →
      (∃ q ∈ preds, q.topLeft = none ∨ q.bottomRight = none ∨ q.probability = none) →
      (detectObjects (some model) (some frame) (some cfg)).result = .ok []) ∧
    (∀ preds : List CocoPrediction, cfg.type = "cocossd" →
      model.detect frame (scoreThresholdOf cfg) (maxDetectionsOf cfg) = .returns preds →
      (detectObjects (some model) (some frame) (some cfg)).result =
        .ok (preds.map cocoAdapter)) := by
  constructor
  · intro preds htype hback hmiss
    obtain ⟨e, he⟩ := mapFaces_missing preds hmiss
    simp only [detectObjects, detectObjects_blazeface_eq model frame cfg preds htype hback, he]
  · intro preds htype hback
    simp only [detectObjects, detectObjects_cocossd_eq model frame cfg preds htype hback]

/-- An instance of amended claim C15: a face without `probability` empties the result. -/
theorem detectObjects_malformed_witness :
    (detectObjects (some (constModel [] [face0.raw, faceNoProbability])) (some frame0)
        (some blazefaceConfig)).result = .ok [] :=
  (detectObjects_malformed (constModel [] [face0.raw, faceNoProbability]) frame0
    blazefaceConfig).1 [face0.raw, faceNoProbability] rfl rfl
    ⟨faceNoProbability, by simp, Or.inr (Or.inr rfl)⟩

/-- A backend call that throws is turned into the empty list by the `catch`. -/
theorem detectObjects_backendThrows (m : Model) (f : Frame) (c : ModelConfig)
    (h : backendThrows m f c) :
    (detectObjects (some m) (some f) (some c)).result = .ok [] := by
  rcases h with ⟨htype, hthrow⟩ | ⟨htype, hthrow⟩
  · simp only [detectObjects, detectObjectsTry, if_pos htype, hthrow]
  · have hne : ¬ c.type = "cocossd" := by rw [htype]; decide
    simp only [detectObjects, detectObjectsTry, if_neg hne, if_pos htype, hthrow]

theorem detectFrame_ready (env : FrameEnv) (video : VideoElement) (model : Model)
    (cfg : Option ModelConfig) (a : Bool) (hv : env.video = some video)
    (hcanvas : env.canvasPresent = true) (hctx : env.contextPresent = true)
    (hready : video.readyState = 4) (hw : 0 < video.videoWidth) :
    detectFrame env (some model) cfg true a =
      [Effect.drawImage,
        Effect.detectObjects (detectObjects (some model) (some video.frame) cfg).calls] ++
      afterInference (detectObjects (some model) (some video.frame) cfg) a []
        (if a then [Effect.requestAnimationFrame] else []) := by
  simp [detectFrame, hv, hcanvas, hctx, hready, hw]

/-- Claim C16: `detectObjects` never fails: its promise always resolves; with the model
or the frame absent, or when the backend call throws or rejects, it resolves with the
empty list, and an active webcam cycle then reports the empty batch and schedules the
next cycle. -/
theorem detectObjects_never_fails (model : Option Model) (frame : Option Frame)
    (cfg : Option ModelConfig) :
    (∃ records, (detectObjects model frame cfg).result = .ok records) ∧
    (model = none ∨ frame = none → (detectObjects model frame cfg).result = .ok []) ∧
    (∀ m f c, model = some m → frame = some f → cfg = some c → backendThrows m f c →
      (detectObjects model frame cfg).result = .ok []) ∧
    (∀ (env : FrameEnv) (video : VideoElement) m c, model = some m → cfg = some c →
      env.video = some video → env.canvasPresent = true → env.contextPresent = true →
      video.readyState = 4 → 0 < video.videoWidth → backendThrows m video.frame c →
      ∃ calls, detectFrame env model cfg true true =
        [Effect.drawImage, Effect.detectObjects calls, Effect.drawDetections [],
          Effect.onDetectionResults [], Effect.requestAnimationFrame]) := by
  refine ⟨detectObjects_resolves model frame cfg, ?_, ?_, ?_⟩
  · rintro (h | h)
    · rw [h]; rfl
    · rw [h]; cases model <;> rfl
  · intro m f c hm hf hc hthrow
    rw [hm, hf, hc]
    exact detectObjects_backendThrows m f c hthrow
  · intro env video m c hm hc hv hcanvas hctx hready hw hthrow
    rw [hm, hc, detectFrame_ready env video m (some c) true hv hcanvas hctx hready hw]
    refine ⟨(detectObjects (some m) (some video.frame) (some c)).calls, ?_⟩
    simp [afterInference, detectObjects_backendThrows m video.frame c hthrow,
      drawDetectionsThrows]

/-- An instance of claim C16: a backend whose calls throw, asked for COCO-SSD detection. -/
theorem detectObjects_never_fails_witness :
    (detectObjects (some failingModel) (some frame0) (some cocoConfig)).result = .ok [] ∧
      ∃ calls, detectFrame readyEnv (some failingModel) (some cocoConfig) true true =
        [Effect.drawImage, Effect.detectObjects calls, Effect.drawDetections [],
          Effect.onDetectionResults [], Effect.requestAnimationFrame] :=
  have h := detectObjects_never_fails (some failingModel) (some frame0) (some cocoConfig)
  ⟨h.2.2.1 failingModel frame0 cocoConfig rfl rfl rfl (Or.inl ⟨rfl, rfl⟩),
    h.2.2.2 readyEnv readyVideo failingModel cocoConfig rfl rfl rfl rfl rfl rfl
      (by decide) (Or.inl ⟨rfl, rfl⟩)⟩

/-! ## The detection cycles: cancellation and readiness -/

/-- With the flag cleared when the result arrives, nothing follows the inference. -/
theorem afterInference_cancelled (model : Option Model) (frame : Option Frame)
    (cfg : Option ModelConfig) (inCatch after : List Effect) :
    afterInference (detectObjects model frame cfg) false inCatch after = [] := by
  obtain ⟨records, h⟩ := detectObjects_resolves model frame cfg
  simp [afterInference, h]

theorem detectFrame_cancelled (env : FrameEnv) (model : Option Model)
    (cfg : Option ModelConfig) (atStart : Bool) :
    detectFrame env model cfg atStart false = [] ∨
      detectFrame env model cfg atStart false =
        [Effect.consoleLog, Effect.requestAnimationFrame] ∨
      detectFrame env model cfg atStart false =
        [Effect.consoleError, Effect.requestAnimationFrame] ∨
      ∃ calls, detectFrame env model cfg atStart false =
        [Effect.drawImage, Effect.detectObjects calls] := by
  unfold detectFrame
  cases atStart with
  | false => left; rfl
  | true =>
    right
    cases hv : env.video with
    | none => left; rfl
    | some video =>
      simp only [Bool.not_true, Bool.false_eq_true, if_false]
      split
      · split
        · right; left; rfl
        · right; right
          exact ⟨_, by rw [afterInference_cancelled]; rfl⟩
      · left; rfl

theorem detectImage_cancelled (env : ImageEnv) (model : Option Model)
    (cfg : Option ModelConfig) (atStart atTimeout : Bool) :
    detectImage env model cfg atStart atTimeout false = [] ∨
      detectImage env model cfg atStart atTimeout false =
        [Effect.onDetectionStart, Effect.consoleError, Effect.onDetectionResults []] ∨
      detectImage env model cfg atStart atTimeout false =
        [Effect.onDetectionStart, Effect.setCanvasSize env.imageWidth env.imageHeight,
          Effect.consoleError, Effect.onDetectionResults []] ∨
      detectImage env model cfg atStart atTimeout false =
        [Effect.onDetectionStart, Effect.setCanvasSize env.imageWidth env.imageHeight,
          Effect.clearRect, Effect.drawImage, Effect.setTimeout 100] ∨
      ∃ calls, detectImage env model cfg atStart atTimeout false =
        [Effect.onDetectionStart, Effect.setCanvasSize env.imageWidth env.imageHeight,
          Effect.clearRect, Effect.drawImage, Effect.setTimeout 100,
          Effect.detectObjects calls] := by
  unfold detectImage
  cases atStart with
  | false => left; rfl
  | true =>
    right
    simp only [Bool.not_true, Bool.false_eq_true, if_false]
    split
    · left; rfl
    · right
      split
      · left; rfl
      · right
        unfold detectImageCallback
        cases atTimeout with
        | false => left; rfl
        | true =>
          right
          refine ⟨(detectObjects model env.imageElement cfg).calls, ?_⟩
          simp [afterInference_cancelled]

/-- Claim C17: in the webcam loop and in the still-image cycle, when the cycle has been
cancelled (`isActive` cleared) by the time the inference result arrives, the cycle ends
at the inference call: the result is not drawn with `drawDetections`, not passed to
`onDetectionResults`, and no error is reported. -/
theorem cancelled_cycle_discards_result (model : Option Model) (cfg : Option ModelConfig) :
    (∀ (env : FrameEnv) (atStart : Bool) (calls : List BackendCall),
      Effect.detectObjects calls ∈ detectFrame env model cfg atStart false →
      detectFrame env model cfg atStart false =
        [Effect.drawImage, Effect.detectObjects calls]) ∧
    (∀ (env : ImageEnv) (atStart atTimeout : Bool) (calls : List BackendCall),
      Effect.detectObjects calls ∈ detectImage env model cfg atStart atTimeout false →
      detectImage env model cfg atStart atTimeout false =
        [Effect.onDetectionStart, Effect.setCanvasSize env.imageWidth env.imageHeight,
          Effect.clearRect, Effect.drawImage, Effect.setTimeout 100,
          Effect.detectObjects calls]) ∧
    (∀ (env : FrameEnv) (atStart : Bool) (results : List DetectionRecord),
      Effect.drawDetections results ∉ detectFrame env model cfg atStart false ∧
      Effect.onDetectionResults results ∉ detectFrame env model cfg atStart false) ∧
    (∀ (env : ImageEnv) (atStart atTimeout : Bool) (results : List DetectionRecord),
      Effect.drawDetections results ∉
        detectImage env model cfg atStart atTimeout false) := by
  refine ⟨?_, ?_, ?_, ?_⟩
  · intro env atStart calls hmem
    rcases detectFrame_cancelled env model cfg atStart with h | h | h | ⟨c, h⟩
    all_goals rw [h] at hmem ⊢
    all_goals simp at hmem
    subst hmem; rfl
  · intro env atStart atTimeout calls hmem
    rcases detectImage_cancelled env model cfg atStart atTimeout with
      h | h | h | h | ⟨c, h⟩
    all_goals rw [h] at hmem ⊢
    all_goals simp at hmem
    subst hmem; rfl
  · intro env atStart results
    rcases detectFrame_cancelled env model cfg atStart with h | h | h | ⟨c, h⟩
    all_goals rw [h]
    all_goals simp
  · intro env atStart atTimeout results
    rcases detectImage_cancelled env model cfg atStart atTimeout with
      h | h | h | h | ⟨c, h⟩
    all_goals rw [h]
    all_goals simp

/-- An instance of claim C17: a ready webcam cycle and a still-image cycle whose flag is
cleared while the inference runs stop right after the inference call. -/
theorem cancelled_cycle_discards_result_witness :
    detectFrame readyEnv (some (constModel [cocoAdapterInput] [])) (some cocoConfig)
        true false =
      [Effect.drawImage, Effect.detectObjects [.detect frame0 (1 / 2) 20]] ∧
    detectImage imageEnv (some (constModel [cocoAdapterInput] [])) (some cocoConfig)
        true true false =
      [Effect.onDetectionStart, Effect.setCanvasSize 640 480, Effect.clearRect,
        Effect.drawImage, Effect.setTimeout 100,
        Effect.detectObjects [.detect frame0 (1 / 2) 20]] :=
  have h := cancelled_cycle_discards_result (some (constModel [cocoAdapterInput] []))
    (some cocoConfig)
  ⟨h.1 readyEnv true [.detect frame0 (1 / 2) 20] (by
      simp [detectFrame, readyEnv, readyVideo, detectObjects, detectObjectsTry, cocoConfig,
        constModel, scoreThresholdOf, maxDetectionsOf]),
    h.2.1 imageEnv true true [.detect frame0 (1 / 2) 20] (by
      simp [detectImage, detectImageCallback, imageEnv, detectObjects, detectObjectsTry,
        cocoConfig, constModel, scoreThresholdOf, maxDetectionsOf])⟩

/-- A cycle that is not ready logs and schedules the next cycle, nothing else. -/
theorem detectFrame_not_ready (env : FrameEnv) (model : Option Model)
    (cfg : Option ModelConfig) (a : Bool) (h : ¬ readyForInference env model) :
    detectFrame env model cfg true a =
      [Effect.consoleLog, Effect.requestAnimationFrame] := by
  unfold detectFrame
  simp only [Bool.not_true, Bool.false_eq_true, if_false]
  cases hv : env.video with
  | none => rfl
  | some video =>
    simp only
    split
    · rename_i hguard
      exfalso
      apply h
      simp only [Bool.and_eq_true, beq_iff_eq, decide_eq_true_eq] at hguard
      obtain ⟨⟨⟨hm, hc⟩, hr⟩, hw⟩ := hguard
      have hh : 0 < video.videoHeight := by
        rcases Nat.eq_zero_or_pos video.videoHeight with h0 | hpos
        · have := video.dims.mpr h0
          omega
        · exact hpos
      exact ⟨video, hv, hm, hc, hr, hw, hh⟩
    · rfl

/-- Claim C18: in an active cycle of the webcam loop, an inference call is issued only if
the video element, the model and the canvas context are present and the video has a
ready frame (`readyState = 4`) and non-zero dimensions; when one of these checks fails,
the cycle issues no inference call, reports no results, logs no error, and schedules
the next cycle. -/
theorem detectFrame_guard (env : FrameEnv) (model : Option Model)
    (cfg : Option ModelConfig) (afterAwait : Bool) :
    (∀ calls, Effect.detectObjects calls ∈ detectFrame env model cfg true afterAwait →
      readyForInference env model) ∧
    (¬ readyForInference env model →
      detectFrame env model cfg true afterAwait =
          [Effect.consoleLog, Effect.requestAnimationFrame] ∧
        (∀ calls, Effect.detectObjects calls ∉ detectFrame env model cfg true afterAwait) ∧
        (∀ results,
          Effect.onDetectionResults results ∉ detectFrame env model cfg true afterAwait) ∧
        Effect.consoleError ∉ detectFrame env model cfg true afterAwait ∧
        Effect.requestAnimationFrame ∈ detectFrame env model cfg true afterAwait) := by
  constructor
  · intro calls hmem
    by_contra hnot
    rw [detectFrame_not_ready env model cfg afterAwait hnot] at hmem
    simp at hmem
  · intro hnot
    rw [detectFrame_not_ready env model cfg afterAwait hnot]
    simp

/-- An instance of claim C18: a video without data yet (`readyState = 0`, size `0 x 0`)
is skipped and the next cycle scheduled; a playing video is ready. -/
theorem detectFrame_guard_witness :
    detectFrame waitingEnv (some failingModel) (some cocoConfig) true true =
        [Effect.consoleLog, Effect.requestAnimationFrame] ∧
      readyForInference readyEnv (some failingModel) :=
  ⟨((detectFrame_guard waitingEnv (some failingModel) (some cocoConfig) true).2 (by
      rintro ⟨video, hv, _, _, hr, _, _⟩
      have hv' : video = emptyVideo := by
        simp only [waitingEnv, Option.some.injEq] at hv
        exact hv.symm
      rw [hv'] at hr
      simp [emptyVideo] at hr)).1,
    (detectFrame_guard readyEnv (some failingModel) (some cocoConfig) true).1
      [.detect frame0 (1 / 2) 20] (by
        simp [detectFrame, readyEnv, readyVideo, detectObjects, detectObjectsTry, cocoConfig,
          failingModel, scoreThresholdOf, maxDetectionsOf])⟩

/-! ## Drawing -/

/-- The skip test of line 44 is the negation of the specification's inside condition. -/
theorem outsideCanvas_eq (ctx : Canvas) (d : Detection) :
    outsideCanvas ctx d = !decide (insideSurface ctx d) := by
  unfold outsideCanvas insideSurface
  by_cases h1 : d.bbox.x < 0
  · have : ¬ 0 ≤ d.bbox.x := not_le.mpr h1
    simp [h1, this]
  · by_cases h2 : d.bbox.y < 0
    · have : ¬ 0 ≤ d.bbox.y := not_le.mpr h2
      simp [h2, this]
    · by_cases h3 : d.bbox.x + d.bbox.width > ctx.width
      · have : ¬ d.bbox.x + d.bbox.width ≤ ctx.width := not_le.mpr h3
        simp [h3, this]
      · by_cases h4 : d.bbox.y + d.bbox.height > ctx.height
        · have : ¬ d.bbox.y + d.bbox.height ≤ ctx.height := not_le.mpr h4
          simp [h4, this]
        · simp [h1, h2, h3, h4, not_lt.mp h1, not_lt.mp h2, not_lt.mp h3, not_lt.mp h4]

theorem drawDetection_outside (ctx : Canvas) (state : ColorState) (d : Detection)
    (h : ¬ insideSurface ctx d) : drawDetection ctx state d = (state, []) := by
  simp [drawDetection, outsideCanvas_eq, h]

theorem drawDetection_inside (ctx : Canvas) (state : ColorState) (d : Detection)
    (h : insideSurface ctx d) :
    (drawDetection ctx state d).2 =
      [CanvasOp.setStrokeStyle ((assignColor state d.class_).get d.class_),
        CanvasOp.beginPath,
        CanvasOp.rect d.bbox.x d.bbox.y d.bbox.width d.bbox.height,
        CanvasOp.stroke,
        CanvasOp.setFillStyle ((assignColor state d.class_).get d.class_),
        CanvasOp.fillRect (labelTag ctx d).x (labelTag ctx d).y (labelTag ctx d).width
          (labelTag ctx d).height,
        CanvasOp.setFillStyle (some "#FFFFFF"),
        CanvasOp.fillText (labelOf d) (d.bbox.x + padding) (d.bbox.y - padding)] := by
  simp [drawDetection, outsideCanvas_eq, h]

/-- The rectangles stroked by the loop are the boxes of the detections inside the
surface, in order. -/
theorem drawLoop_rects (ctx : Canvas) : ∀ (D : List Detection) (state : ColorState),
    (drawLoop ctx state D).filterMap rectOf =
      (D.filter (fun d => decide (insideSurface ctx d))).map (fun d => d.bbox) := by
  intro D
  induction D with
  | nil => intro _; rfl
  | cons d ds ih =>
    intro state
    rw [drawLoop, List.filterMap_append, ih]
    by_cases h : insideSurface ctx d
    · rw [drawDetection_inside ctx state d h]
      simp [List.filter_cons, h, rectOf]
    · rw [drawDetection_outside ctx state d h]
      simp [List.filter_cons, h]

/-- Detections outside the surface have no effect on the loop. -/
theorem drawLoop_filter (ctx : Canvas) : ∀ (D : List Detection) (state : ColorState),
    drawLoop ctx state D =
      drawLoop ctx state (D.filter (fun d => decide (insideSurface ctx d))) := by
  intro D
  induction D with
  | nil => intro _; rfl
  | cons d ds ih =>
    intro state
    by_cases h : insideSurface ctx d
    · have hf : (d :: ds).filter (fun d => decide (insideSurface ctx d)) =
          d :: ds.filter (fun d => decide (insideSurface ctx d)) := by
        simp [List.filter_cons, h]
      rw [hf, drawLoop, drawLoop, ih]
    · have hf : (d :: ds).filter (fun d => decide (insideSurface ctx d)) =
          ds.filter (fun d => decide (insideSurface ctx d)) := by
        simp [List.filter_cons, h]
      rw [hf, drawLoop, drawDetection_outside ctx state d h, ih]
      rfl

/-- Every detection inside the surface gets its label background drawn. -/
theorem drawLoop_fillRect (ctx : Canvas) (d : Detection) (hin : insideSurface ctx d) :
    ∀ (D : List Detection) (state : ColorState), d ∈ D →
      CanvasOp.fillRect (labelTag ctx d).x (labelTag ctx d).y (labelTag ctx d).width
        (labelTag ctx d).height ∈ drawLoop ctx state D := by
  intro D
  induction D with
  | nil => intro _ h; cases h
  | cons a as ih =>
    intro state hmem
    rw [drawLoop, List.mem_append]
    rcases List.mem_cons.mp hmem with rfl | h
    · left
      rw [drawDetection_inside ctx state d hin]
      simp
    · right
      exact ih _ h

/-- Claim C19: `drawDetections` draws a detection, a rectangle at exactly its box, if and
only if the box lies inside the surface (`x >= 0`, `y >= 0`, `x + width <= W`,
`y + height <= H`): the rectangles drawn are the boxes of these detections, in order;
every other detection produces no operation and changes nothing for the others. -/
theorem drawDetections_inside_only (ctx : Canvas) (D : List Detection) :
    (drawDetections (some ctx) (some D)).filterMap rectOf =
      (D.filter (fun d => decide (insideSurface ctx d))).map (fun d => d.bbox) ∧
    drawDetections (some ctx) (some D) =
      drawDetections (some ctx) (some (D.filter (fun d => decide (insideSurface ctx d)))) ∧
    (∀ state d, ¬ insideSurface ctx d → drawDetection ctx state d = (state, [])) ∧
    (∀ state d, insideSurface ctx d →
      CanvasOp.rect d.bbox.x d.bbox.y d.bbox.width d.bbox.height ∈
        (drawDetection ctx state d).2) := by
  refine ⟨?_, ?_, ?_, ?_⟩
  · simp only [drawDetections]
    rw [List.filterMap_append, drawLoop_rects]
    simp [rectOf]
  · simp only [drawDetections]
    rw [← drawLoop_filter]
  · intro state d h
    exact drawDetection_outside ctx state d h
  · intro state d h
    rw [drawDetection_inside ctx state d h]
    simp

/-- An instance of claim C19: of a box inside and a box past the right edge of a
`100 x 100` canvas, only the first is drawn. -/
theorem drawDetections_inside_only_witness :
    (drawDetections (some canvas100) (some [catWide, catHalf])).filterMap rectOf =
      [boxA] := by
  rw [(drawDetections_inside_only canvas100 [catWide, catHalf]).1]
  have h1 : ¬ insideSurface canvas100 catWide := by
    unfold insideSurface
    norm_num [canvas100, catWide]
  have h2 : insideSurface canvas100 catHalf := by
    unfold insideSurface
    norm_num [canvas100, catHalf, boxA]
  simp [List.filter_cons, h1, h2]
  rfl

theorem labelTag_eq (ctx : Canvas) (d : Detection) :
    labelTag ctx d =
      ⟨d.bbox.x, d.bbox.y - 24, ctx.measureText (labelOf d) + 8, 24⟩ := by
  simp only [labelTag, labelFontSize, padding, Box.mk.injEq]
  refine ⟨trivial, by ring, by ring, by norm_num⟩

/-- The label holds at least the three characters of `": "` and `"%"`. -/
theorem labelOf_length (d : Detection) : 3 ≤ (labelOf d).length := by
  have h2 : ": ".length = 2 := by decide
  have h1 : "%".length = 1 := by decide
  simp only [labelOf, String.length_append, h2, h1]
  omega

theorem drawDetections_fillRect (ctx : Canvas) (D : List Detection) (d : Detection)
    (hd : d ∈ D) (hin : insideSurface ctx d) :
    CanvasOp.fillRect (labelTag ctx d).x (labelTag ctx d).y (labelTag ctx d).width
      (labelTag ctx d).height ∈ drawDetections (some ctx) (some D) := by
  simp only [drawDetections]
  exact List.mem_append_right _ (drawLoop_fillRect ctx d hin D _ hd)

/-- Claim C20, as stated, fails: on a `100 x 100` canvas the detection with box
`[0, 0, 10, 10]` is drawn, and its label background is a rectangle whose top edge is
`-24`, above the surface; for the box `[90, 50, 10, 10]` the right edge of the label
background is past the width `100`. -/
theorem labelTag_leaves_surface :
    (insideSurface canvas100 catHalf ∧
      CanvasOp.fillRect (labelTag canvas100 catHalf).x (labelTag canvas100 catHalf).y
        (labelTag canvas100 catHalf).width (labelTag canvas100 catHalf).height ∈
          drawDetections (some canvas100) (some [catHalf]) ∧
      (labelTag canvas100 catHalf).y = -24 ∧ ¬ 0 ≤ (labelTag canvas100 catHalf).y) ∧
    (insideSurface canvas100 catRight ∧
      CanvasOp.fillRect (labelTag canvas100 catRight).x (labelTag canvas100 catRight).y
        (labelTag canvas100 catRight).width (labelTag canvas100 catRight).height ∈
          drawDetections (some canvas100) (some [catRight]) ∧
      ¬ (labelTag canvas100 catRight).x + (labelTag canvas100 catRight).width ≤
        canvas100.width) := by
  have h1 : insideSurface canvas100 catHalf := by
    unfold insideSurface
    norm_num [canvas100, catHalf, boxA]
  have h2 : insideSurface canvas100 catRight := by
    unfold insideSurface
    norm_num [canvas100, catRight]
  have hy : (labelTag canvas100 catHalf).y = -24 := by
    rw [labelTag_eq]
    norm_num [catHalf, boxA]
  have hlen : (3 : ℚ) ≤ ((labelOf catRight).length : ℚ) := by
    exact_mod_cast labelOf_length catRight
  refine ⟨⟨h1, drawDetections_fillRect _ _ _ (List.mem_singleton.mpr rfl) h1, hy, ?_⟩,
    ⟨h2, drawDetections_fillRect _ _ _ (List.mem_singleton.mpr rfl) h2, ?_⟩⟩
  · rw [hy]; norm_num
  · rw [labelTag_eq]
    simp only [canvas100, catRight] at hlen ⊢
    norm_num
    linarith

/-- Claim C20, amended: for a detection of non-negative height that `drawDetections`
draws on a `W x H` canvas, the label background is the rectangle
`(x, y - 24, textWidth + 8, 24)`; its left edge is `>= 0` and its bottom edge is `<= H`;
the rectangle is not clipped, so its top edge is `>= 0` exactly when `y >= 24` and its
right edge is `<= W` exactly when `x + textWidth + 8 <= W`. -/
theorem labelTag_bounds (ctx : Canvas) (D : List Detection) (d : Detection)
    (hd : d ∈ D) (hin : insideSurface ctx d) (hh : 0 ≤ d.bbox.height) :
    CanvasOp.fillRect (labelTag ctx d).x (labelTag ctx d).y (labelTag ctx d).width
        (labelTag ctx d).height ∈ drawDetections (some ctx) (some D) ∧
      labelTag ctx d = ⟨d.bbox.x, d.bbox.y - 24, ctx.measureText (labelOf d) + 8, 24⟩ ∧
      0 ≤ (labelTag ctx d).x ∧
      (labelTag ctx d).y + (labelTag ctx d).height ≤ ctx.height ∧
      (0 ≤ (labelTag ctx d).y ↔ 24 ≤ d.bbox.y) ∧
      ((labelTag ctx d).x + (labelTag ctx d).width ≤ ctx.width ↔
        d.bbox.x + ctx.measureText (labelOf d) + 8 ≤ ctx.width) := by
  obtain ⟨hx, hy, _, hyh⟩ := hin
  refine ⟨drawDetections_fillRect ctx D d hd ⟨hx, hy, ‹_›, hyh⟩, labelTag_eq ctx d, ?_, ?_,
    ?_, ?_⟩
  · rw [labelTag_eq]; exact hx
  · rw [labelTag_eq]
    show d.bbox.y - 24 + 24 ≤ (ctx.height : ℚ)
    linarith
  · rw [labelTag_eq]
    show 0 ≤ d.bbox.y - 24 ↔ 24 ≤ d.bbox.y
    constructor <;> intro h <;> linarith
  · rw [labelTag_eq]
    show d.bbox.x + (ctx.measureText (labelOf d) + 8) ≤ (ctx.width : ℚ) ↔
      d.bbox.x + ctx.measureText (labelOf d) + 8 ≤ (ctx.width : ℚ)
    rw [add_assoc]

/-- An instance of amended claim C20: the box `[90, 50, 10, 10]` on a `100 x 100` canvas;
the label background starts at `x = 90`, `y = 26` and ends at the top edge of the box. -/
theorem labelTag_bounds_witness :
    (labelTag canvas100 catRight).x = 90 ∧ (labelTag canvas100 catRight).y = 26 ∧
      (labelTag canvas100 catRight).y + (labelTag canvas100 catRight).height ≤
        canvas100.height := by
  have hin : insideSurface canvas100 catRight := by
    unfold insideSurface
    norm_num [canvas100, catRight]
  have h := labelTag_bounds canvas100 [catRight] catRight (List.mem_singleton.mpr rfl) hin
    (by norm_num [catRight])
  refine ⟨?_, ?_, h.2.2.2.1⟩
  · rw [h.2.1]; rfl
  · rw [h.2.1]; norm_num [catRight]

/-! ## Non-maximum suppression: no duplicate is left -/

/-- Claim C25: no two detections in the output of `applyNonMaxSuppression(D, t)` have the
same class and an IoU greater than `t` with each other, in either argument order. -/
theorem applyNonMaxSuppression_no_duplicates (D : List Detection) (t : ℚ) :
    (applyNonMaxSuppression (some D) t).Pairwise (fun a b =>
      ¬ (a.class_ = b.class_ ∧
        (t < calculateIoU a.bbox b.bbox ∨ t < calculateIoU b.bbox a.bbox))) := by
  refine (applyNonMaxSuppression_pairwise D t).imp ?_
  intro c d hkeep
  rintro ⟨hclass, hiou⟩
  have hdup : isDuplicate t c d = true := by
    rw [isDuplicate_iff]
    refine ⟨hclass.symm, ?_⟩
    rcases hiou with h | h
    · rw [calculateIoU_comm]; exact h
    · exact h
  rw [hdup] at hkeep
  cases hkeep

/-! ## The results table -/

theorem insertBy_compareScore (compareFn : Detection → Detection → ℚ)
    (h : ∀ a b, compareFn a b = compareScore a b) (x : Detection) :
    ∀ l : List Detection, insertBy compareFn x l = insertByScore x l := by
  intro l
  induction l with
  | nil => rfl
  | cons y ys ih =>
    simp only [insertBy, insertByScore, h, ih]

/-- A comparator equal to `(a, b) => b.score - a.score` sorts as `sortDetections`. -/
theorem stableSort_compareScore (compareFn : Detection → Detection → ℚ)
    (h : ∀ a b, compareFn a b = compareScore a b) :
    ∀ l : List Detection, stableSort compareFn l = sortDetections l := by
  intro l
  induction l with
  | nil => rfl
  | cons x xs ih =>
    simp only [stableSort, sortDetections, ih, insertBy_compareScore compareFn h]

theorem includes_iff (className filterText : String) :
    includes (toLowerCase className) (toLowerCase filterText) = true ↔
      containsIgnoringCase className filterText := by
  simp [includes, toLowerCase, containsIgnoringCase]

theorem resultsPanelRows_confidence (localeCompare : String → String → ℤ)
    (D : List Detection) (f : String) (hD : D ≠ []) :
    resultsPanelRows localeCompare (some D) "confidence" f =
      some (sortDetections
        (D.filter (fun d => decide (containsIgnoringCase d.class_ f)))) := by
  have hfilter : (fun pred : Detection =>
        includes (toLowerCase pred.class_) (toLowerCase f)) =
      (fun d => decide (containsIgnoringCase d.class_ f)) := by
    funext x
    rw [Bool.eq_iff_iff, includes_iff, decide_eq_true_iff]
  cases D with
  | nil => exact absurd rfl hD
  | cons d ds =>
    have hsort := stableSort_compareScore
      (fun a b => if "confidence" = "confidence" then b.score - a.score
        else ((localeCompare a.class_ b.class_ : ℤ) : ℚ)) (fun a b => if_pos rfl)
    show some (stableSort _ (List.filter _ (d :: ds))) = _
    rw [hsort, hfilter]

/-- Claim C23: for a non-empty batch and a filter text, the rows `ResultsPanel` displays
in the `'confidence'` mode are exactly the detections whose class name contains the
filter text ignoring case, in non-increasing order of confidence, detections of equal
confidence in batch order. -/
theorem resultsPanelRows_confidence_spec (localeCompare : String → String → ℤ)
    (D : List Detection) (f : String) (hD : D ≠ []) :
    ∃ rows, resultsPanelRows localeCompare (some D) "confidence" f = some rows ∧
      rows.Perm (D.filter (fun d => decide (containsIgnoringCase d.class_ f))) ∧
      (∀ d, d ∈ rows ↔ d ∈ D ∧ containsIgnoringCase d.class_ f) ∧
      rows.Pairwise (fun a b => b.score ≤ a.score) ∧
      (∀ s : ℚ, rows.filter (fun d => decide (d.score = s)) =
        (D.filter (fun d => decide (containsIgnoringCase d.class_ f))).filter
          (fun d => decide (d.score = s))) := by
  refine ⟨_, resultsPanelRows_confidence localeCompare D f hD, sortDetections_perm _, ?_,
    sortDetections_sorted _, fun s => sortDetections_filter_score s _⟩
  intro d
  rw [(sortDetections_perm _).mem_iff, List.mem_filter, decide_eq_true_iff]

/-- The scenario of claim C23: the batch cat `0.9`, cat `0.4`, dog `0.7` with the filter
text `"ca"` shows the two cats, `0.9` before `0.4`. -/
theorem resultsPanelRows_confidence_spec_witness :
    resultsPanelRows (fun _ _ => 0) (some [catNine, catFour, dogSeven]) "confidence" "ca" =
      some [catNine, catFour] := by
  obtain ⟨rows, hrows, _, _, _, _⟩ := resultsPanelRows_confidence_spec (fun _ _ => 0)
    [catNine, catFour, dogSeven] "ca" (List.cons_ne_nil _ _)
  have hfilter : [catNine, catFour, dogSeven].filter
      (fun d => decide (containsIgnoringCase d.class_ "ca")) = [catNine, catFour] := by
    have h1 : containsIgnoringCase catNine.class_ "ca" := by decide
    have h2 : containsIgnoringCase catFour.class_ "ca" := by decide
    have h3 : ¬ containsIgnoringCase dogSeven.class_ "ca" := by decide
    simp only [List.filter, h1, h2, h3, decide_True, decide_False]
  have hsorted : sortDetections [catNine, catFour] = [catNine, catFour] := by
    apply sortDetections_of_sorted
    refine List.Pairwise.cons ?_ (List.pairwise_singleton _ _)
    intro b hb
    rw [List.mem_singleton.mp hb]
    norm_num [catNine, catFour]
  have heq := hrows.symm.trans
    (resultsPanelRows_confidence (fun _ _ => 0) [catNine, catFour, dogSeven] "ca"
      (List.cons_ne_nil _ _))
  rw [Option.some.injEq, hfilter, hsorted] at heq
  rw [hrows, heq]

/-! ## The session state -/

/-- Every handler call made through the latest render keeps a single source. -/
theorem appStep_singleSource (s : AppState) (a : AppAction) (h : singleSource s) :
    singleSource (appStep s a) := by
  cases a with
  | modelChange modelType =>
    simp only [appStep, handleModelChange]
    split
    · simp [singleSource]
    · exact h
  | imageUpload imageData =>
    unfold singleSource at h ⊢
    cases hw : s.useWebcam <;> simp [appStep, handleImageUpload, hw]
  | toggleWebcam =>
    unfold singleSource at h ⊢
    cases hi : s.image <;> cases hw : s.useWebcam <;>
      simp_all [appStep, toggleWebcam]

theorem appRun_singleSource (actions : List AppAction) :
    ∀ s, singleSource s → singleSource (appRun s actions) := by
  induction actions with
  | nil => intro s h; exact h
  | cons a as ih =>
    intro s h
    exact ih _ (appStep_singleSource s a h)

/-- Each handler empties the predictions, whatever render its closure is from;
`handleModelChange` leaves the state unchanged for a model type not in `MODELS`. -/
theorem handlers_reset_predictions (render current : AppState) :
    (∀ imageData, (handleImageUpload render imageData current).predictions = []) ∧
    (toggleWebcam render current).predictions = [] ∧
    (∀ modelType, (∃ m ∈ MODELS, m.type = modelType) →
      (handleModelChange modelType current).predictions = []) ∧
    (∀ modelType, (¬ ∃ m ∈ MODELS, m.type = modelType) →
      handleModelChange modelType current = current) := by
  refine ⟨fun _ => rfl, rfl, ?_, ?_⟩
  · rintro modelType ⟨m, hm, rfl⟩
    simp only [handleModelChange]
    cases hfind : MODELS.find? (fun x => x.type == m.type) with
    | some newModel => rfl
    | none =>
      rw [List.find?_eq_none] at hfind
      exact absurd (hfind m hm) (by simp)
  · intro modelType hnot
    simp only [handleModelChange]
    cases hfind : MODELS.find? (fun x => x.type == modelType) with
    | none => rfl
    | some newModel =>
      exfalso
      apply hnot
      have hmem := List.mem_of_find?_eq_some hfind
      have hp := List.find?_some hfind
      exact ⟨newModel, hmem, by simpa using hp⟩

/-! ## Colours of the classes -/

theorem drawDetection_inside_eq (ctx : Canvas) (state : ColorState) (d : Detection)
    (h : insideSurface ctx d) :
    drawDetection ctx state d =
      (assignColor state d.class_,
        detectionOps ctx d ((assignColor state d.class_).get d.class_)) := by
  simp [drawDetection, outsideCanvas_eq, h, detectionOps]

theorem colorState_has_get (m : List (String × Option String)) (n : Nat) (c : String) :
    (ColorState.has ⟨m, n⟩ c = (m.lookup c).isSome) ∧
      (ColorState.get ⟨m, n⟩ c = (m.lookup c).join) := by
  constructor
  · rfl
  · simp only [ColorState.get]
    cases m.lookup c <;> rfl

/-- Assigning a colour to a class keeps the colour state in step with the classes seen. -/
theorem assignColor_inv (state : ColorState) (seen : List String) (c : String)
    (h : ColorInv state seen) :
    ColorInv (assignColor state c) (if c ∈ seen then seen else seen ++ [c]) := by
  obtain ⟨hidx, hhas, hget⟩ := h
  by_cases hc : c ∈ seen
  · have hh : state.has c = true := (hhas c).mpr hc
    simp only [assignColor, hh, Bool.not_true, Bool.false_eq_true, if_false, if_pos hc]
    exact ⟨hidx, hhas, hget⟩
  · have hh : state.has c = false := by
      rw [← Bool.not_eq_true]
      exact fun h => hc ((hhas c).mp h)
    simp only [assignColor, hh, Bool.not_false, if_true, if_neg hc]
    obtain ⟨m, n⟩ := state
    simp only at hidx
    have hlen : colorPalette.length = 10 := rfl
    refine ⟨by simp [hidx], ?_, ?_⟩
    · intro c'
      rw [(colorState_has_get _ _ c').1, List.lookup_append]
      have h1 := hhas c'
      rw [(colorState_has_get m n c').1] at h1
      by_cases hcc : c' = c
      · subst hcc
        simp [List.lookup]
      · have hne : (c' == c) = false := by simpa using hcc
        cases hl : m.lookup c' with
        | none =>
          rw [hl] at h1
          simp [List.lookup, hne, hcc] at h1 ⊢
          exact h1
        | some v =>
          rw [hl] at h1
          simp only [Option.isSome_some, true_iff] at h1
          simp [h1]
    · intro c' hc'
      rw [(colorState_has_get _ _ c').2, List.lookup_append]
      rcases List.mem_append.mp hc' with hin | hin
      · have h1 := (hhas c').mpr hin
        rw [(colorState_has_get m n c').1] at h1
        have h2 := hget c' hin
        rw [(colorState_has_get m n c').2] at h2
        rw [List.indexOf_append_of_mem hin, ← h2]
        cases hl : m.lookup c' with
        | none => rw [hl] at h1; cases h1
        | some v => rfl
      · have hcc : c' = c := List.mem_singleton.mp hin
        subst hcc
        have h1 : (m.lookup c').isSome = false := by
          rw [← (colorState_has_get m n c').1]; exact hh
        have hnone : m.lookup c' = none := by
          cases hl : m.lookup c' with
          | none => rfl
          | some v => rw [hl] at h1; cases h1
        rw [hnone, List.indexOf_append_of_not_mem hc, hlen, hidx]
        simp [List.lookup]

theorem distinctClasses_append (cs : List String) :
    ∀ seen, ∃ ext, distinctClasses seen cs = seen ++ ext := by
  induction cs with
  | nil => intro seen; exact ⟨[], by simp [distinctClasses]⟩
  | cons c cs ih =>
    intro seen
    simp only [distinctClasses]
    by_cases hc : c ∈ seen
    · rw [if_pos hc]; exact ih seen
    · rw [if_neg hc]
      obtain ⟨ext, hext⟩ := ih (seen ++ [c])
      exact ⟨[c] ++ ext, by rw [hext, List.append_assoc]⟩

theorem distinctClasses_indexOf (cs seen : List String) (c : String) (hc : c ∈ seen) :
    (distinctClasses seen cs).indexOf c = seen.indexOf c := by
  obtain ⟨ext, hext⟩ := distinctClasses_append cs seen
  rw [hext, List.indexOf_append_of_mem hc]

theorem distinctClasses_mem_seen (cs seen : List String) (c : String) (hc : c ∈ seen) :
    c ∈ distinctClasses seen cs := by
  obtain ⟨ext, hext⟩ := distinctClasses_append cs seen
  rw [hext]
  exact List.mem_append_left _ hc

theorem distinctClasses_mem (cs : List String) :
    ∀ seen c, c ∈ cs → c ∈ distinctClasses seen cs := by
  induction cs with
  | nil => intro _ _ h; cases h
  | cons a as ih =>
    intro seen c hc
    simp only [distinctClasses]
    rcases List.mem_cons.mp hc with rfl | h
    · apply distinctClasses_mem_seen
      by_cases hin : c ∈ seen
      · rw [if_pos hin]; exact hin
      · rw [if_neg hin]; simp
    · exact ih _ c h

theorem distinctClasses_nodup (cs : List String) :
    ∀ seen, seen.Nodup → (distinctClasses seen cs).Nodup := by
  induction cs with
  | nil => intro seen h; exact h
  | cons a as ih =>
    intro seen h
    simp only [distinctClasses]
    by_cases hin : a ∈ seen
    · rw [if_pos hin]; exact ih seen h
    · rw [if_neg hin]
      apply ih
      rw [List.nodup_append]
      refine ⟨h, List.nodup_singleton a, ?_⟩
      intro x hx hx'
      rw [List.mem_singleton] at hx'
      exact hin (hx' ▸ hx)

/-- The loop, started in a colour state in step with the classes seen, ends in step with
the classes seen then, and every drawn detection is drawn with the final colour of its
class. -/
theorem drawLoop_colors (ctx : Canvas) : ∀ (D : List Detection) (state : ColorState)
    (seen : List String), ColorInv state seen →
    ColorInv (colorLoop ctx state D)
        (distinctClasses seen
          ((D.filter (fun d => decide (insideSurface ctx d))).map (fun d => d.class_))) ∧
      drawLoop ctx state D =
        (D.filter (fun d => decide (insideSurface ctx d))).flatMap
          (fun d => detectionOps ctx d ((colorLoop ctx state D).get d.class_)) := by
  intro D
  induction D with
  | nil => intro state seen h; exact ⟨h, rfl⟩
  | cons d ds ih =>
    intro state seen h
    by_cases hin : insideSurface ctx d
    · have hf : (d :: ds).filter (fun d => decide (insideSurface ctx d)) =
          d :: ds.filter (fun d => decide (insideSurface ctx d)) := by
        simp [List.filter_cons, hin]
      have hinv := assignColor_inv state seen d.class_ h
      obtain ⟨hfinal, hops⟩ := ih (assignColor state d.class_) _ hinv
      have hmem : d.class_ ∈ (if d.class_ ∈ seen then seen else seen ++ [d.class_]) := by
        by_cases hc : d.class_ ∈ seen
        · rw [if_pos hc]; exact hc
        · rw [if_neg hc]; simp
      have hsame : (colorLoop ctx (assignColor state d.class_) ds).get d.class_ =
          (assignColor state d.class_).get d.class_ := by
        rw [hfinal.2.2 d.class_ (distinctClasses_mem_seen _ _ _ hmem),
          distinctClasses_indexOf _ _ _ hmem, hinv.2.2 d.class_ hmem]
      rw [hf]
      simp only [List.map_cons, distinctClasses, colorLoop, drawLoop, List.flatMap_cons,
        drawDetection_inside_eq ctx state d hin]
      exact ⟨hfinal, by rw [hops, hsame]⟩
    · have hf : (d :: ds).filter (fun d => decide (insideSurface ctx d)) =
          ds.filter (fun d => decide (insideSurface ctx d)) := by
        simp [List.filter_cons, hin]
      obtain ⟨hfinal, hops⟩ := ih state seen h
      rw [hf]
      simp only [colorLoop, drawLoop, drawDetection_outside ctx state d hin,
        List.nil_append]
      exact ⟨hfinal, hops⟩

theorem colorInv_initial : ColorInv ⟨[], 0⟩ [] := by
  refine ⟨rfl, ?_, ?_⟩
  · intro c
    simp [ColorState.has, List.lookup]
  · intro c hc
    cases hc

/-- The colour of a class drawn in a call is the palette entry of its rank modulo 10. -/
theorem classColor_eq (ctx : Canvas) (D : List Detection) (c : String)
    (hc : c ∈ drawnClasses ctx D) :
    classColor ctx D c = colorPalette[(drawnClasses ctx D).indexOf c % 10]? :=
  (drawLoop_colors ctx D ⟨[], 0⟩ [] colorInv_initial).1.2.2 c hc

/-- Claim C21: within one call of `drawDetections`, every drawn detection is drawn (box
and label background) with the colour of its class, so detections of the same class
get the same colour; the `k`-th distinct class encountered among the drawn detections
(`k` from 0, skipped detections not counted) has palette entry `k mod 10`. -/
theorem drawDetections_class_colors (ctx : Canvas) (D : List Detection) :
    drawDetections (some ctx) (some D) =
        [CanvasOp.setFont "16px Arial", CanvasOp.setLineWidth 3] ++
          (D.filter (fun d => decide (insideSurface ctx d))).flatMap
            (fun d => detectionOps ctx d (classColor ctx D d.class_)) ∧
      (∀ d ∈ D, insideSurface ctx d → d.class_ ∈ drawnClasses ctx D) ∧
      (drawnClasses ctx D).Nodup ∧
      (∀ c ∈ drawnClasses ctx D,
        (drawnClasses ctx D).indexOf c < (drawnClasses ctx D).length ∧
        classColor ctx D c = colorPalette[(drawnClasses ctx D).indexOf c % 10]? ∧
        (classColor ctx D c).isSome = true) := by
  refine ⟨?_, ?_, distinctClasses_nodup _ [] List.nodup_nil, ?_⟩
  · simp only [drawDetections]
    rw [(drawLoop_colors ctx D ⟨[], 0⟩ [] colorInv_initial).2]
    rfl
  · intro d hd hin
    apply distinctClasses_mem
    exact List.mem_map.mpr ⟨d, List.mem_filter.mpr ⟨hd, by simpa using hin⟩, rfl⟩
  · intro c hc
    have hlt : (drawnClasses ctx D).indexOf c % 10 < colorPalette.length :=
      Nat.mod_lt _ (by decide)
    refine ⟨List.indexOf_lt_length.mpr hc, classColor_eq ctx D c hc, ?_⟩
    rw [classColor_eq ctx D c hc, List.getElem?_eq_getElem hlt]
    rfl

theorem insideSurface_catHalf : insideSurface canvas100 catHalf := by
  unfold insideSurface
  norm_num [canvas100, catHalf, boxA]

theorem insideSurface_dogLow : insideSurface canvas100 dogLow := by
  unfold insideSurface
  norm_num [canvas100, dogLow, boxD]

theorem insideSurface_catRight : insideSurface canvas100 catRight := by
  unfold insideSurface
  norm_num [canvas100, catRight]

theorem drawnClasses_cat_dog : drawnClasses canvas100 [catHalf, dogLow] = ["cat", "dog"] := by
  have hf : [catHalf, dogLow].filter (fun d => decide (insideSurface canvas100 d)) =
      [catHalf, dogLow] := by
    simp [List.filter_cons, insideSurface_catHalf, insideSurface_dogLow]
  rw [drawnClasses, hf]
  decide

theorem drawnClasses_dog_cat : drawnClasses canvas100 [dogLow, catHalf] = ["dog", "cat"] := by
  have hf : [dogLow, catHalf].filter (fun d => decide (insideSurface canvas100 d)) =
      [dogLow, catHalf] := by
    simp [List.filter_cons, insideSurface_catHalf, insideSurface_dogLow]
  rw [drawnClasses, hf]
  decide

theorem drawnClasses_cat_cat_dog :
    drawnClasses canvas100 [catHalf, catRight, dogLow] = ["cat", "dog"] := by
  have hf : [catHalf, catRight, dogLow].filter
      (fun d => decide (insideSurface canvas100 d)) = [catHalf, catRight, dogLow] := by
    simp [List.filter_cons, insideSurface_catHalf, insideSurface_dogLow,
      insideSurface_catRight]
  rw [drawnClasses, hf]
  decide

/-- An instance of claim C21: in the batch cat, cat, dog the class `cat` is the class of
rank 0 and has the first palette colour, `dog` has rank 1 and the second. -/
theorem drawDetections_class_colors_witness :
    classColor canvas100 [catHalf, catRight, dogLow] "cat" = some "#FF3B30" ∧
      classColor canvas100 [catHalf, catRight, dogLow] "dog" = some "#4CD964" := by
  have h := (drawDetections_class_colors canvas100 [catHalf, catRight, dogLow]).2.2.2
  have hcat := (h "cat" (by rw [drawnClasses_cat_cat_dog]; decide)).2.1
  have hdog := (h "dog" (by rw [drawnClasses_cat_cat_dog]; decide)).2.1
  rw [drawnClasses_cat_cat_dog] at hcat hdog
  exact ⟨hcat.trans (by decide), hdog.trans (by decide)⟩

/-- Claim C22, as stated, fails: the map of class colours is created anew in every call.
On the same canvas the batch cat, dog draws `cat` red (`#FF3B30`), the batch dog, cat
draws `cat` green (`#4CD964`). -/
theorem classColor_changes_between_calls :
    "cat" ∈ drawnClasses canvas100 [catHalf, dogLow] ∧
      "cat" ∈ drawnClasses canvas100 [dogLow, catHalf] ∧
      drawDetections (some canvas100) (some [catHalf, dogLow]) =
        [CanvasOp.setFont "16px Arial", CanvasOp.setLineWidth 3] ++
          detectionOps canvas100 catHalf (some "#FF3B30") ++
          detectionOps canvas100 dogLow (some "#4CD964") ∧
      drawDetections (some canvas100) (some [dogLow, catHalf]) =
        [CanvasOp.setFont "16px Arial", CanvasOp.setLineWidth 3] ++
          detectionOps canvas100 dogLow (some "#FF3B30") ++
          detectionOps canvas100 catHalf (some "#4CD964") ∧
      classColor canvas100 [catHalf, dogLow] "cat" ≠
        classColor canvas100 [dogLow, catHalf] "cat" := by
  have hm1 : "cat" ∈ drawnClasses canvas100 [catHalf, dogLow] := by
    rw [drawnClasses_cat_dog]; decide
  have hm2 : "cat" ∈ drawnClasses canvas100 [dogLow, catHalf] := by
    rw [drawnClasses_dog_cat]; decide
  have hd1 : "dog" ∈ drawnClasses canvas100 [catHalf, dogLow] := by
    rw [drawnClasses_cat_dog]; decide
  have hd2 : "dog" ∈ drawnClasses canvas100 [dogLow, catHalf] := by
    rw [drawnClasses_dog_cat]; decide
  have hc1 : classColor canvas100 [catHalf, dogLow] "cat" = some "#FF3B30" := by
    rw [classColor_eq _ _ _ hm1, drawnClasses_cat_dog]; decide
  have hc2 : classColor canvas100 [dogLow, catHalf] "cat" = some "#4CD964" := by
    rw [classColor_eq _ _ _ hm2, drawnClasses_dog_cat]; decide
  have hg1 : classColor canvas100 [catHalf, dogLow] "dog" = some "#4CD964" := by
    rw [classColor_eq _ _ _ hd1, drawnClasses_cat_dog]; decide
  have hg2 : classColor canvas100 [dogLow, catHalf] "dog" = some "#FF3B30" := by
    rw [classColor_eq _ _ _ hd2, drawnClasses_dog_cat]; decide
  have hf1 : [catHalf, dogLow].filter (fun d => decide (insideSurface canvas100 d)) =
      [catHalf, dogLow] := by
    simp [List.filter_cons, insideSurface_catHalf, insideSurface_dogLow]
  have hf2 : [dogLow, catHalf].filter (fun d => decide (insideSurface canvas100 d)) =
      [dogLow, catHalf] := by
    simp [List.filter_cons, insideSurface_catHalf, insideSurface_dogLow]
  refine ⟨hm1, hm2, ?_, ?_, ?_⟩
  · simp only [drawDetections]
    rw [(drawLoop_colors canvas100 [catHalf, dogLow] ⟨[], 0⟩ [] colorInv_initial).2, hf1]
    have e1 : (colorLoop canvas100 ⟨[], 0⟩ [catHalf, dogLow]).get catHalf.class_ =
        some "#FF3B30" := hc1
    have e2 : (colorLoop canvas100 ⟨[], 0⟩ [catHalf, dogLow]).get dogLow.class_ =
        some "#4CD964" := hg1
    simp only [List.flatMap_cons, List.flatMap_nil, e1, e2, List.append_nil,
      List.append_assoc]
  · simp only [drawDetections]
    rw [(drawLoop_colors canvas100 [dogLow, catHalf] ⟨[], 0⟩ [] colorInv_initial).2, hf2]
    have e1 : (colorLoop canvas100 ⟨[], 0⟩ [dogLow, catHalf]).get catHalf.class_ =
        some "#4CD964" := hc2
    have e2 : (colorLoop canvas100 ⟨[], 0⟩ [dogLow, catHalf]).get dogLow.class_ =
        some "#FF3B30" := hg2
    simp only [List.flatMap_cons, List.flatMap_nil, e1, e2, List.append_nil,
      List.append_assoc]
  · rw [hc1, hc2]
    decide

/-- Claim C22, amended: the colour of a class is fixed by the call alone, as the palette
entry of the rank of the class among the distinct drawn classes of the batch; for two
calls and a class drawn in both, the colours are the same whenever the class has the
same rank modulo 10 in both batches. -/
theorem classColor_same_rank (ctx₁ ctx₂ : Canvas) (D₁ D₂ : List Detection) (c : String)
    (h₁ : c ∈ drawnClasses ctx₁ D₁) (h₂ : c ∈ drawnClasses ctx₂ D₂)
    (hrank : (drawnClasses ctx₁ D₁).indexOf c % 10 = (drawnClasses ctx₂ D₂).indexOf c % 10) :
    classColor ctx₁ D₁ c = colorPalette[(drawnClasses ctx₁ D₁).indexOf c % 10]? ∧
      classColor ctx₂ D₂ c = colorPalette[(drawnClasses ctx₂ D₂).indexOf c % 10]? ∧
      classColor ctx₁ D₁ c = classColor ctx₂ D₂ c := by
  refine ⟨classColor_eq ctx₁ D₁ c h₁, classColor_eq ctx₂ D₂ c h₂, ?_⟩
  rw [classColor_eq ctx₁ D₁ c h₁, classColor_eq ctx₂ D₂ c h₂, hrank]

/-- An instance of amended claim C22: `dog` is the second class seen in the batch cat, dog
and in the batch cat, cat, dog, and has the same colour in both calls. -/
theorem classColor_same_rank_witness :
    classColor canvas100 [catHalf, dogLow] "dog" =
      classColor canvas100 [catHalf, catRight, dogLow] "dog" :=
  (classColor_same_rank canvas100 canvas100 [catHalf, dogLow] [catHalf, catRight, dogLow]
    "dog" (by rw [drawnClasses_cat_dog]; decide)
    (by rw [drawnClasses_cat_cat_dog]; decide)
    (by rw [drawnClasses_cat_dog, drawnClasses_cat_cat_dog])).2.2

/-- Claim C24 fails on the code for a handler kept from an earlier render: the
`handleImageUpload` of the initial render (in which `useWebcam` is `false`), called
after `toggleWebcam` has switched the webcam on, skips `setUseWebcam(false)` and sets
the image, so the state holds an image while `useWebcam` is `true`. The predictions
are empty. -/
theorem handleImageUpload_stale_render :
    singleSource initialState ∧
      (toggleWebcam initialState initialState).useWebcam = true ∧
      (handleImageUpload initialState image0
        (toggleWebcam initialState initialState)).image = some image0 ∧
      (handleImageUpload initialState image0
        (toggleWebcam initialState initialState)).useWebcam = true ∧
      ¬ singleSource (handleImageUpload initialState image0
        (toggleWebcam initialState initialState)) ∧
      (handleImageUpload initialState image0
        (toggleWebcam initialState initialState)).predictions = [] := by
  refine ⟨?_, rfl, rfl, rfl, ?_, rfl⟩
  · simp [singleSource, initialState]
  · simp [singleSource, handleImageUpload, toggleWebcam, initialState]

/-- With every handler called through the latest render, no state reached from the
initial state holds an image while `useWebcam` is `true`. -/
theorem appRun_initial_singleSource (actions : List AppAction) :
    singleSource (appRun initialState actions) :=
  appRun_singleSource actions initialState (by simp [singleSource, initialState])

end DetectionService
